import Mathlib

/-!
# Verification of the `bigchaindb_common` transaction model

A shallow embedding of `bigchaindb_common/transaction.py`: the
`Fulfillment`, `TransactionLink`, `Condition`, `Asset`, `Metadata` and
`Transaction` classes, their dictionary (de)serialization, the signing
pipeline and the validation pipeline.  Python dictionaries of the fixed
transaction schema are embedded as Lean structures; methods that can raise
become `Except`-valued functions; in-place mutation of `self.fulfillments`
is threaded explicitly.  The `cryptoconditions` package and the repository
modules `crypto.py` / `util.py` / `exceptions.py` are not part of the
source tree; they are modelled from the spec as noted on each definition.
-/

namespace BigchainCommon

/-- Error kinds a call can raise.  `exceptions.py` is not in the source
tree; the kinds are modelled from the spec (§7) together with the built-in
Python exceptions the code raises.  Message strings are elided: the code
never branches on them. -/
inductive TxError
  | typeError
  | valueError
  | keypairMismatch
  | invalidHash
  | invalidSignature
  | notImplementedError
  | attributeError
  | indexError
  deriving DecidableEq, Repr

/-- Modelled from the spec: `crypto.hash_data` (not in the source tree) is a
deterministic SHA3-256 hex digest.  The claims depend only on it being a
fixed deterministic function of the serialized text, so a tagged copy of
the input stands in for the digest. -/
def hash_data (s : String) : String := "sha3-256$" ++ s

/-- Modelled from the spec: deriving the public key from a private key
(`SigningKey(k).get_verifying_key().encode().decode()`, `crypto.py` is not
in the source tree).  The claims depend only on the derivation being a
deterministic function of the private key. -/
def gen_public_key (private_key : String) : String := "pub$" ++ private_key

/-- Modelled from the spec: an idealized Ed25519 signature value.  A
signature made with private key `k` over message `m` carries the derived
public key and the message; verification checks both (a perfect,
deterministic signature scheme, as assumed by the spec's CryptoPrimitive
capability). -/
structure Sig where
  pk : String
  msg : String
  deriving DecidableEq, Repr

/-- Modelled from the spec: the `cryptoconditions` ConditionTree — an
`Ed25519Fulfillment` leaf (public key plus optional signature), a
`ThresholdSha256Fulfillment` node (minimum count over ordered children),
or a `PreimageSha256Fulfillment` hash-lock. -/
inductive CCFulfillment
  | ed25519 (public_key : String) (signature : Option Sig)
  | threshold (threshold : Nat) (subfulfillments : List CCFulfillment)
  | preimage (preimage : String)
  deriving Repr

namespace CCFulfillment

mutual

/-- Whether `serialize_uri` succeeds on this fulfillment: an Ed25519 leaf
needs its signature, a threshold node needs at least `threshold` signed
children, a preimage fulfillment always serializes. -/
def isSigned : CCFulfillment → Bool
  | .ed25519 _ signature => signature.isSome
  | .threshold t subs => t ≤ countSigned subs
  | .preimage _ => true

/-- Number of signed fulfillments in a list of children. -/
def countSigned : List CCFulfillment → Nat
  | [] => 0
  | f :: fs => (if f.isSigned then 1 else 0) + countSigned fs

end

mutual

/-- Modelled from the spec: `cryptoconditions` `validate(message)` — an
Ed25519 leaf checks its signature against the public key and the message,
a threshold node needs at least `threshold` valid children, a preimage
fulfillment validates. -/
def validate : CCFulfillment → String → Bool
  | .ed25519 public_key signature, message =>
      match signature with
      | some s => s.pk = public_key && s.msg = message
      | none => false
  | .threshold t subs, message => t ≤ countValid subs message
  | .preimage _, _ => true

/-- Number of children valid for `message`. -/
def countValid : List CCFulfillment → String → Nat
  | [], _ => 0
  | f :: fs, message => (if f.validate message then 1 else 0) + countValid fs message

end

mutual

/-- Modelled from the spec: the condition fingerprint URI
(`condition_uri`), a deterministic digest of the signature-free skeleton
of the tree. -/
def conditionUri : CCFulfillment → String
  | .ed25519 public_key _ => "cc:4:" ++ public_key
  | .threshold t subs => "cc:2:" ++ toString t ++ ":" ++ conditionUriList subs
  | .preimage p => "cc:0:" ++ hash_data p

/-- Fingerprints of a list of children, joined. -/
def conditionUriList : List CCFulfillment → String
  | [] => ""
  | f :: fs => f.conditionUri ++ "," ++ conditionUriList fs

end

/-- Modelled from the spec: `serialize_uri` followed by
`Fulfillment.from_uri`.  The URI of a signed fulfillment parses back to the
fulfillment itself; `serialize_uri` on an insufficiently signed fulfillment
raises (`TypeError` for an unsigned Ed25519 leaf, `ValueError` for an
undersigned threshold node), modelled as `none`. -/
def serializeParse (f : CCFulfillment) : Option CCFulfillment :=
  if f.isSigned then some f else none

/-- Modelled from the spec: `Ed25519Fulfillment.sign(message, private_key)`
sets the signature (overwriting any previous one).  Only called on Ed25519
leaves by the signing pipeline. -/
def sign (f : CCFulfillment) (message : String) (private_key : String) : CCFulfillment :=
  match f with
  | .ed25519 public_key _ => .ed25519 public_key (some ⟨gen_public_key private_key, message⟩)
  | other => other

mutual

/-- Whether some Ed25519 leaf with public key `vk` occurs in the tree below
a threshold node, in the traversal order of `get_subcondition_from_vk`
(children in order, recursing into nested threshold nodes). -/
def hasLeafVk : CCFulfillment → String → Bool
  | .ed25519 public_key _, vk => public_key = vk
  | .threshold _ subs, vk => hasLeafVkList subs vk
  | .preimage _, _ => false

/-- `hasLeafVk` over a list of children. -/
def hasLeafVkList : List CCFulfillment → String → Bool
  | [], _ => false
  | f :: fs, vk => f.hasLeafVk vk || hasLeafVkList fs vk

end

mutual

/-- The in-place `subffill.sign` on the first Ed25519 leaf matching `vk`
(the `get_subcondition_from_vk(vk)[0]` of the source, lines 994-995),
rendered functionally: returns the tree with that leaf's signature set, or
`none` when no leaf matches (`IndexError` in the source, line 996). -/
def signFirstLeaf : CCFulfillment → String → String → String → Option CCFulfillment
  | .ed25519 public_key _, vk, message, private_key =>
      if public_key = vk then
        some (.ed25519 public_key (some ⟨gen_public_key private_key, message⟩))
      else none
  | .threshold t subs, vk, message, private_key =>
      match signFirstLeafList subs vk message private_key with
      | some subs => some (.threshold t subs)
      | none => none
  | .preimage _, _, _, _ => none

/-- `signFirstLeaf` over a list of children: signs within the first child
containing a matching leaf. -/
def signFirstLeafList : List CCFulfillment → String → String → String → Option (List CCFulfillment)
  | [], _, _, _ => none
  | f :: fs, vk, message, private_key =>
      match f.signFirstLeaf vk message private_key with
      | some f => some (f :: fs)
      | none =>
          match signFirstLeafList fs vk message private_key with
          | some fs => some (f :: fs)
          | none => none

end

end CCFulfillment

/-- An element of the owner specification accepted by `Condition.generate`
(source lines 271-324): a public key, a fully instantiated
cryptocondition, a nested plain sublist (Python `list`), or a sublist
wrapped with an explicit threshold (Python `tuple`). -/
inductive OwnerSpec
  | key (pk : String)
  | cond (f : CCFulfillment)
  | sub (owners : List OwnerSpec)
  | subT (owners : List OwnerSpec) (threshold : Nat)
  deriving Repr

namespace OwnerSpec

/-- `isinstance(el, list)`: only a plain sublist is a Python `list` (a
threshold-wrapped sublist is a `tuple`). -/
def isList : OwnerSpec → Bool
  | .sub _ => true
  | _ => false

mutual

/-- Whether the specification contains a nested sublist (plain or
threshold-wrapped) with fewer than two entries. -/
def hasShortSub : OwnerSpec → Bool
  | .key _ => false
  | .cond _ => false
  | .sub l => decide (l.length ≤ 1) || hasShortSubList l
  | .subT l _ => decide (l.length ≤ 1) || hasShortSubList l

/-- `hasShortSub` over a list of elements. -/
def hasShortSubList : List OwnerSpec → Bool
  | [] => false
  | x :: xs => x.hasShortSub || hasShortSubList xs

end

end OwnerSpec

/-- `TransactionLink` (source lines 131-192): an optional pointer to a
Condition `cid` of the Transaction `txid`. -/
structure TransactionLink where
  txid : Option String
  cid : Option Nat
  deriving DecidableEq, Repr

/-- The dictionary form of a present `TransactionLink`. -/
structure TransactionLinkDict where
  txid : Option String
  cid : Option Nat
  deriving DecidableEq, Repr

/-- `TransactionLink.to_dict` (lines 180-192): `None` when both fields are
`None`, the two-field dictionary otherwise. -/
def TransactionLink.to_dict (l : TransactionLink) : Option TransactionLinkDict :=
  match l.txid, l.cid with
  | none, none => none
  | txid, cid => some ⟨txid, cid⟩

/-- `TransactionLink.from_dict` (lines 165-178): subscripting `None`
raises `TypeError`, caught to produce the empty link. -/
def TransactionLink.from_dict (link : Option TransactionLinkDict) : TransactionLink :=
  match link with
  | some l => ⟨l.txid, l.cid⟩
  | none => ⟨none, none⟩

/-- The `input` value of a Fulfillment's dictionary form:
`self.tx_input.to_dict()` with the `AttributeError` on a `None` input
caught to `None` (lines 86-90). -/
def linkOut : Option TransactionLink → Option TransactionLinkDict
  | some l => l.to_dict
  | none => none

/-- `Fulfillment` (source lines 16-128): a cryptocondition claim, the
owners expected to sign it, and an optional input link.  The
`fulfillment` attribute is typed as the documented
`cryptoconditions.Fulfillment`. -/
structure Fulfillment where
  fulfillment : CCFulfillment
  owners_before : List String
  tx_input : Option TransactionLink
  deriving Repr

/-- `Fulfillment.__init__` (lines 29-51).  Its only checks are
`isinstance` checks on `tx_input` and `owners_before` that hold by typing
here; in particular nothing constrains `owners_before` to be non-empty,
so construction always succeeds. -/
def Fulfillment.init (fulfillment : CCFulfillment) (owners_before : List String)
    (tx_input : Option TransactionLink) : Fulfillment :=
  ⟨fulfillment, owners_before, tx_input⟩

/-- The value of the `fulfillment` key in a Fulfillment's dictionary form:
a serialized URI (abstracted by the fulfillment it parses back to), an
unparseable string, the structured dictionary of an unsigned
cryptocondition, or the `None` placeholder installed by
`_remove_signatures`. -/
inductive FfillRepr
  | uri (f : CCFulfillment)
  | badUri (s : String)
  | dictForm (f : CCFulfillment)
  | null
  deriving Repr

/-- An element of `tx['transaction']['fulfillments']`. -/
structure FulfillmentSer where
  owners_before : List String
  input : Option TransactionLinkDict
  fulfillment : FfillRepr
  fid : Option Nat
  deriving Repr

/-- `Fulfillment.to_dict` (lines 57-99): `serialize_uri` on a signed
claim, falling back to the structured dict form when serialization raises
(`TypeError`/`AttributeError`, the unsigned case); `input` from the link's
`to_dict` or `None`; `fid` included when submitted. -/
def Fulfillment.to_dict (f : Fulfillment) (fid : Option Nat) : FulfillmentSer :=
  { owners_before := f.owners_before
  , input := linkOut f.tx_input
  , fulfillment := match f.fulfillment.serializeParse with
      | some u => .uri u
      | none => .dictForm f.fulfillment
  , fid := fid }

/-- `Fulfillment.from_dict` (lines 101-128): `from_uri` on the
`fulfillment` value — a `ValueError` (unparseable string) is re-raised as
`InvalidSignature`, a `TypeError` (dict form) falls back to
`CCFulfillment.from_dict`, and the `None` placeholder raises `TypeError`
from that fallback. -/
def Fulfillment.from_dict (ffill : FulfillmentSer) : Except TxError Fulfillment := do
  let fulfillment ← match ffill.fulfillment with
    | .uri f => Except.ok f
    | .badUri _ => Except.error TxError.invalidSignature
    | .dictForm f => Except.ok f
    | .null => Except.error TxError.typeError
  .ok ⟨fulfillment, ffill.owners_before, some (TransactionLink.from_dict ffill.input)⟩

/-- The `fulfillment` attribute of a `Condition`: normally a
cryptocondition, but a bare URI string in the hash-lock case, and — via
the `except TypeError` fallback of `generate` (lines 315-318) — any other
value such as a threshold-wrapped tuple. -/
inductive CondFfill
  | cc (f : CCFulfillment)
  | uriStr (s : String)
  | pyObj (o : OwnerSpec)
  deriving Repr

/-- `Condition` (source lines 195-397): a cryptocondition (or URI), the
owners entitled to claim it, and an amount. -/
structure Condition where
  fulfillment : CondFfill
  owners_after : Option (List OwnerSpec)
  amount : Nat
  deriving Repr

/-- The value stored under the `uri` key of a Condition's dictionary: the
fingerprint string, or — when the stored fulfillment has no
`condition_uri` attribute — the stored object itself (lines 256-259). -/
inductive UriVal
  | str (s : String)
  | raw (o : OwnerSpec)
  deriving Repr

/-- The `condition` sub-dictionary of a serialized Condition: optional
structured `details` plus the `uri`. -/
structure CondSer where
  details : Option CCFulfillment
  uri : UriVal
  deriving Repr

/-- An element of `tx['transaction']['conditions']`. -/
structure ConditionSer where
  owners_after : Option (List OwnerSpec)
  condition : CondSer
  amount : Nat
  cid : Option Nat
  deriving Repr

/-- `Condition.to_dict` (lines 232-268): `details` from the
cryptocondition's dict form (skipped on `AttributeError`), `uri` from
`condition_uri` with fallback to the stored value, `cid` when
submitted. -/
def Condition.to_dict (c : Condition) (cid : Option Nat) : ConditionSer :=
  let condition : CondSer :=
    match c.fulfillment with
    | .cc f => ⟨some f, .str f.conditionUri⟩
    | .uriStr s => ⟨none, .str s⟩
    | .pyObj o => ⟨none, .raw o⟩
  ⟨c.owners_after, condition, c.amount, cid⟩

/-- `Condition.from_dict` (lines 376-397): structured `details` when
present, otherwise (`KeyError`) the raw `uri` value. -/
def Condition.from_dict (cond : ConditionSer) : Condition :=
  let fulfillment : CondFfill :=
    match cond.condition.details with
    | some f => .cc f
    | none =>
        match cond.condition.uri with
        | .str s => .uriStr s
        | .raw o => .pyObj o
  ⟨fulfillment, cond.owners_after, cond.amount⟩

/-- `CCFulfillment.add_subfulfillment`: appends a child to a threshold
node (the signing/generation code only calls it on threshold nodes). -/
def CCFulfillment.addSub : CCFulfillment → CCFulfillment → CCFulfillment
  | .threshold t subs, s => .threshold t (subs ++ [s])
  | other, _ => other

mutual

/-- `Condition._gen_condition` (lines 326-374) as a fold step: a key
becomes an Ed25519 leaf, an instantiated cryptocondition is adopted
(`except TypeError` fallback), a sublist of more than one entry becomes a
nested threshold node (threshold = its length for a plain list, the
explicit value for a tuple), and a sublist of at most one entry raises
`ValueError` ('Sublist cannot contain single owner'). -/
def genCondStep : CCFulfillment → OwnerSpec → Except TxError CCFulfillment
  | initial, .key pk => .ok (initial.addSub (.ed25519 pk none))
  | initial, .cond f => .ok (initial.addSub f)
  | initial, .sub l =>
      if 1 < l.length then do
        .ok (initial.addSub (← genFold (.threshold l.length []) l))
      else .error .valueError
  | initial, .subT l t =>
      if 1 < l.length then do
        .ok (initial.addSub (← genFold (.threshold t []) l))
      else .error .valueError

/-- The `reduce(cls._gen_condition, owners_after, ...)` fold. -/
def genFold : CCFulfillment → List OwnerSpec → Except TxError CCFulfillment
  | acc, [] => .ok acc
  | acc, x :: xs => do genFold (← genCondStep acc x) xs

end

/-- The top-level argument of `Condition.generate`: a plain list (implicit
threshold = its length) or a `(list, threshold)` tuple. -/
inductive OwnersAfterArg
  | plain (owners : List OwnerSpec)
  | withThreshold (owners : List OwnerSpec) (threshold : Nat)
  deriving Repr

/-- The single-entry fallback of `generate` (lines 314-319):
`Ed25519Fulfillment(public_key=el)` succeeds on a key and raises
`TypeError` on anything else, in which case the element itself is stored
as the fulfillment. -/
def OwnerSpec.asSingleFfill : OwnerSpec → CondFfill
  | .key pk => .cc (.ed25519 pk none)
  | .cond f => .cc f
  | other => .pyObj other

/-- `Condition.generate` (lines 270-324): unpack an optional explicit
threshold; an empty owner sequence raises `ValueError`; a single owner
that is not a Python `list` is used directly (see
`OwnerSpec.asSingleFfill`); otherwise fold all owners into a root
threshold node.  The `isinstance(owners_after, list)` `TypeError` check
holds by typing here. -/
def Condition.generate (arg : OwnersAfterArg) : Except TxError Condition :=
  let p := match arg with
    | .plain l => (l, l.length)
    | .withThreshold l t => (l, t)
  let owners := p.1
  let threshold := p.2
  match owners with
  | [] => .error .valueError
  | [el] =>
      if el.isList then do
        .ok ⟨.cc (← genFold (.threshold threshold []) [el]), some [el], 1⟩
      else
        .ok ⟨el.asSingleFfill, some [el], 1⟩
  | el1 :: el2 :: rest => do
      .ok ⟨.cc (← genFold (.threshold threshold []) (el1 :: el2 :: rest)), some (el1 :: el2 :: rest), 1⟩

/-- The free-form mapping payload carried by `Asset`/`Metadata`, opaque to
every operation of this module. -/
abbrev Payload := String

/-- `Asset` (source lines 400-478). -/
structure Asset where
  data : Option Payload
  data_id : String
  divisible : Bool
  updatable : Bool
  refillable : Bool
  deriving DecidableEq, Repr

/-- `Asset.__init__` (lines 417-426): `data_id` defaults to a freshly
generated uuid (`to_hash`), passed explicitly here as `fresh`.  The
`_validate_asset` `isinstance` checks hold by typing. -/
def Asset.init (data : Option Payload) (data_id : Option String)
    (divisible updatable refillable : Bool) (fresh : String) : Asset :=
  ⟨data, data_id.getD fresh, divisible, updatable, refillable⟩

/-- The full dictionary form of an Asset (lines 435-448). -/
structure AssetDictFull where
  id : String
  divisible : Bool
  updatable : Bool
  refillable : Bool
  data : Option Payload
  deriving DecidableEq, Repr

/-- The `asset` value of a serialized transaction: the full Asset object
for `CREATE`/`GENESIS`, the id-only reference for `TRANSFER` (lines
1141-1145). -/
inductive AssetRepr
  | full (d : AssetDictFull)
  | idOnly (id : String)
  deriving DecidableEq, Repr

/-- `Asset.to_dict` (lines 435-448). -/
def Asset.to_dict (a : Asset) : AssetDictFull :=
  ⟨a.data_id, a.divisible, a.updatable, a.refillable, a.data⟩

/-- `Asset.from_dict` (lines 450-463): `asset['id']` is required, `data`
and the flags use `.get` defaults (`None`/`False`) — so an id-only
reference yields an Asset with no data and all flags `False`. -/
def Asset.from_dict (d : AssetRepr) : Asset :=
  match d with
  | .full d => ⟨d.data, d.id, d.divisible, d.updatable, d.refillable⟩
  | .idOnly i => ⟨none, i, false, false, false⟩

/-- `Metadata` (source lines 481-543). -/
structure Metadata where
  data : Option Payload
  data_id : String
  deriving DecidableEq, Repr

/-- The dictionary form of a Metadata with payload (lines 526-539). -/
structure MetadataDict where
  data : Option Payload
  id : String
  deriving DecidableEq, Repr

/-- `Metadata.to_dict` (lines 526-539): `None` when the payload is
absent. -/
def Metadata.to_dict (m : Metadata) : Option MetadataDict :=
  match m.data with
  | none => none
  | some d => some ⟨some d, m.data_id⟩

/-- `Metadata.from_dict` (lines 511-524): subscripting `None` raises
`TypeError`, caught to construct an empty Metadata whose `data_id` is a
fresh uuid (`fresh`). -/
def Metadata.from_dict (d : Option MetadataDict) (fresh : String) : Metadata :=
  match d with
  | some d => ⟨d.data, d.id⟩
  | none => ⟨none, fresh⟩

/-- `Transaction` (source lines 546-1246): operation, asset, ordered
fulfillments and conditions, optional metadata, timestamp and version. -/
structure Transaction where
  version : Nat
  timestamp : String
  operation : String
  asset : Asset
  fulfillments : List Fulfillment
  conditions : List Condition
  metadata : Option Metadata
  deriving Repr

namespace Transaction

def CREATE : String := "CREATE"

def TRANSFER : String := "TRANSFER"

def GENESIS : String := "GENESIS"

def ALLOWED_OPERATIONS : List String := [CREATE, TRANSFER, GENESIS]

def VERSION : Nat := 1

end Transaction

/-- The `asset` argument of the Transaction constructor, which Python
types dynamically: `None`, an `Asset` instance, or any other value. -/
inductive AssetArg
  | null
  | asset (a : Asset)
  | nonAsset
  deriving Repr

/-- `Transaction.__init__` (lines 571-639): default version and timestamp
(`gen_timestamp()` is passed explicitly as `now`), the operation must be
one of the allowed three (`ValueError`), a missing asset is replaced by a
default `Asset()` only for `CREATE` (its fresh uuid passed as `fresh`),
and anything that is then not an `Asset` instance raises `TypeError`.
The `isinstance` checks on `conditions`/`fulfillments`/`metadata` hold by
typing. -/
def Transaction.init (operation : String) (asset : AssetArg)
    (fulfillments : Option (List Fulfillment)) (conditions : Option (List Condition))
    (metadata : Option Metadata) (timestamp : Option String) (version : Option Nat)
    (fresh : String) (now : String) : Except TxError Transaction :=
  let version := version.getD Transaction.VERSION
  let timestamp := timestamp.getD now
  if operation ∈ Transaction.ALLOWED_OPERATIONS then
    let assetR := match asset with
      | .null =>
          if operation = Transaction.CREATE then
            AssetArg.asset (Asset.init none none false false false fresh)
          else .null
      | a => a
    match assetR with
    | .asset a =>
        .ok { version, timestamp, operation, asset := a
            , fulfillments := fulfillments.getD []
            , conditions := conditions.getD []
            , metadata }
    | _ => .error .typeError
  else .error .valueError

/-- The `transaction` sub-dictionary of the wire form (spec §6). -/
structure TxBody where
  operation : String
  timestamp : String
  asset : AssetRepr
  metadata : Option MetadataDict
  fulfillments : List FulfillmentSer
  conditions : List ConditionSer
  deriving Repr

/-- A transaction dictionary before the `id` is attached (what
`_remove_signatures` and `serialize` operate on in `to_dict` and
`from_dict`). -/
structure TxNoId where
  version : Nat
  transaction : TxBody
  deriving Repr

/-- The full wire dictionary; `id` is optional because a decoded input may
lack it (`from_dict` treats that as `InvalidHash`). -/
structure TxDict where
  id : Option String
  version : Nat
  transaction : TxBody
  deriving Repr

/-- The body of `_remove_signatures`: every fulfillment's `fulfillment`
value is set to the `None` placeholder. -/
def stripBody (b : TxBody) : TxBody :=
  { b with fulfillments := b.fulfillments.map (fun f => { f with fulfillment := FfillRepr.null }) }

/-- `Transaction._remove_signatures` (lines 1169-1190) on a dictionary
without `id` (the `to_dict` / `from_dict` call sites). -/
def Transaction.removeSignatures (t : TxNoId) : TxNoId :=
  { t with transaction := stripBody t.transaction }

/-- `Transaction._remove_signatures` (lines 1169-1190) on a full
dictionary (the signing/validation call sites, where `to_dict` has
already attached the `id`). -/
def Transaction.removeSignaturesD (t : TxDict) : TxDict :=
  { t with transaction := stripBody t.transaction }

/-! ### Canonical serialization

Modelled from the spec (§4.1): `util.serialize` (not in the source tree)
is a deterministic, sorted-key, whitespace-free JSON encoding.  The
printers below emit each dictionary's keys in sorted order; the claims
depend only on the encoding being a fixed deterministic function of the
structured value. -/

def serOptStr : Option String → String
  | none => "null"
  | some s => "s(" ++ s ++ ")"

def serOptNat : Option Nat → String
  | none => "null"
  | some n => toString n

def serStrList (l : List String) : String :=
  "[" ++ String.intercalate "," l ++ "]"

def serSig : Option Sig → String
  | none => "null"
  | some s => "sig(" ++ s.pk ++ "|" ++ s.msg ++ ")"

mutual

/-- The structured dict form of a cryptocondition (its `to_dict`). -/
def serCC : CCFulfillment → String
  | .ed25519 pk sig => "(ed25519:" ++ pk ++ "," ++ serSig sig ++ ")"
  | .threshold t subs => "(threshold:" ++ toString t ++ "," ++ serCCList subs ++ ")"
  | .preimage p => "(preimage:" ++ p ++ ")"

def serCCList : List CCFulfillment → String
  | [] => ""
  | f :: fs => serCC f ++ ";" ++ serCCList fs

end

mutual

def serOwnerSpec : OwnerSpec → String
  | .key pk => "s(" ++ pk ++ ")"
  | .cond f => serCC f
  | .sub l => "[" ++ serOwnerSpecList l ++ "]"
  | .subT l t => "(" ++ serOwnerSpecList l ++ "," ++ toString t ++ ")"

def serOwnerSpecList : List OwnerSpec → String
  | [] => ""
  | x :: xs => serOwnerSpec x ++ "," ++ serOwnerSpecList xs

end

def serFfillRepr : FfillRepr → String
  | .uri f => "s(uri$" ++ serCC f ++ ")"
  | .badUri s => "s(" ++ s ++ ")"
  | .dictForm f => serCC f
  | .null => "null"

def serLink : Option TransactionLinkDict → String
  | none => "null"
  | some l => "(cid:" ++ serOptNat l.cid ++ ",txid:" ++ serOptStr l.txid ++ ")"

def serFulfillmentSer (f : FulfillmentSer) : String :=
  "(fid:" ++ serOptNat f.fid ++ ",fulfillment:" ++ serFfillRepr f.fulfillment ++
    ",input:" ++ serLink f.input ++ ",owners_before:" ++ serStrList f.owners_before ++ ")"

def serUriVal : UriVal → String
  | .str s => "s(" ++ s ++ ")"
  | .raw o => serOwnerSpec o

def serCondSer (c : CondSer) : String :=
  match c.details with
  | none => "(uri:" ++ serUriVal c.uri ++ ")"
  | some f => "(details:" ++ serCC f ++ ",uri:" ++ serUriVal c.uri ++ ")"

def serOwnersAfter : Option (List OwnerSpec) → String
  | none => "null"
  | some l => "[" ++ serOwnerSpecList l ++ "]"

def serConditionSer (c : ConditionSer) : String :=
  "(amount:" ++ toString c.amount ++ ",cid:" ++ serOptNat c.cid ++
    ",condition:" ++ serCondSer c.condition ++
    ",owners_after:" ++ serOwnersAfter c.owners_after ++ ")"

def serAssetRepr : AssetRepr → String
  | .full d =>
      "(data:" ++ serOptStr d.data ++ ",divisible:" ++ toString d.divisible ++
        ",id:s(" ++ d.id ++ "),refillable:" ++ toString d.refillable ++
        ",updatable:" ++ toString d.updatable ++ ")"
  | .idOnly i => "(id:s(" ++ i ++ "))"

def serMetadataDict : Option MetadataDict → String
  | none => "null"
  | some m => "(data:" ++ serOptStr m.data ++ ",id:s(" ++ m.id ++ "))"

def serTxBody (b : TxBody) : String :=
  "(asset:" ++ serAssetRepr b.asset ++
    ",conditions:[" ++ String.intercalate "," (b.conditions.map serConditionSer) ++
    "],fulfillments:[" ++ String.intercalate "," (b.fulfillments.map serFulfillmentSer) ++
    "],metadata:" ++ serMetadataDict b.metadata ++
    ",operation:s(" ++ b.operation ++
    "),timestamp:s(" ++ b.timestamp ++ "))"

/-- `util.serialize` on a transaction dictionary without `id`
(`Transaction._to_str`, line 1203-1205). -/
def serializeTx (t : TxNoId) : String :=
  "(transaction:" ++ serTxBody t.transaction ++ ",version:" ++ toString t.version ++ ")"

/-- `util.serialize` on a full transaction dictionary (the `id` key is
present and sorts first). -/
def serializeTxD (t : TxDict) : String :=
  "(id:" ++ serOptStr t.id ++ ",transaction:" ++ serTxBody t.transaction ++
    ",version:" ++ toString t.version ++ ")"

/-- The `metadata` value of the transaction dictionary:
`self.metadata.to_dict()` with the `AttributeError` on `None` caught
(lines 1135-1139). -/
def metaOut : Option Metadata → Option MetadataDict
  | some m => m.to_dict
  | none => none

/-- The dictionary built by `to_dict` before the `id` is attached (lines
1135-1160). -/
def Transaction.noIdDict (tx : Transaction) : TxNoId :=
  let metadata := metaOut tx.metadata
  let asset : AssetRepr :=
    if tx.operation = Transaction.GENESIS ∨ tx.operation = Transaction.CREATE then
      .full tx.asset.to_dict
    else .idOnly tx.asset.data_id
  { version := tx.version
  , transaction :=
    { operation := tx.operation
    , timestamp := tx.timestamp
    , asset := asset
    , metadata := metadata
    , fulfillments := tx.fulfillments.enum.map (fun p => p.2.to_dict (some p.1))
    , conditions := tx.conditions.enum.map (fun p => p.2.to_dict (some p.1)) } }

/-- `Transaction.to_hash` / the `id` attached by `to_dict` (lines
1162-1166, 1196-1201): the digest of the signature-stripped canonical
serialization. -/
def Transaction.to_hash (tx : Transaction) : String :=
  hash_data (serializeTx (Transaction.removeSignatures tx.noIdDict))

/-- `Transaction.to_dict` (lines 1129-1167): the structured form plus the
computed `id`. -/
def Transaction.to_dict (tx : Transaction) : TxDict :=
  let n := tx.noIdDict
  ⟨some tx.to_hash, n.version, n.transaction⟩

/-- The `[Fulfillment.from_dict(f) for f in tx['fulfillments']]`
comprehension of `from_dict` (lines 1238-1239): left to right, the first
raise propagates. -/
def ffillsFromDict : List FulfillmentSer → Except TxError (List Fulfillment)
  | [] => .ok []
  | x :: xs => do .ok ((← Fulfillment.from_dict x) :: (← ffillsFromDict xs))

/-- `Transaction.from_dict` (lines 1212-1246): pop the claimed `id`
(`KeyError` on absence raises `InvalidHash`), recompute it from the
signature-stripped serialization of the rest, reject any mismatch with
`InvalidHash`, and only then rebuild the fields and run the
constructor.  `fresh` is the uuid `Metadata.from_dict` may need. -/
def Transaction.from_dict (tx_body : TxDict) (fresh : String) : Except TxError Transaction := do
  let proposed_tx_id ← match tx_body.id with
    | some p => Except.ok p
    | none => Except.error TxError.invalidHash
  let noId : TxNoId := ⟨tx_body.version, tx_body.transaction⟩
  let valid_tx_id := hash_data (serializeTx (Transaction.removeSignatures noId))
  if proposed_tx_id ≠ valid_tx_id then .error .invalidHash
  else do
    let t := tx_body.transaction
    let fulfillments ← ffillsFromDict t.fulfillments
    let conditions := t.conditions.map Condition.from_dict
    let metadata := Metadata.from_dict t.metadata fresh
    let asset := Asset.from_dict t.asset
    Transaction.init t.operation (.asset asset) (some fulfillments) (some conditions)
      (some metadata) (some t.timestamp) (some tx_body.version) "" ""

/-! ### Signing pipeline -/

/-- The `key_pairs` dictionary of `sign` (lines 894-895): public key
derived from each private key.  Lookup below is last-wins, as for a
Python dict comprehension. -/
def keyPairs (private_keys : List String) : List (String × String) :=
  private_keys.map (fun sk => (gen_public_key sk, sk))

/-- `key_pairs[pk]`: the private key of the last pair whose public key is
`pk` (`None` models the `KeyError`). -/
def kpLookup : List (String × String) → String → Option String
  | [], _ => none
  | (pub, priv) :: rest, pk =>
      match kpLookup rest pk with
      | some x => some x
      | none => if pub = pk then some priv else none

/-- The per-index signing/validation message (lines 899-908 and
1062-1071): a minimal single-input/single-output partial Transaction with
the same operation, asset, metadata, timestamp and version, run through
`to_dict`, `_remove_signatures` and `_to_str`.  Note that `to_dict` has
already attached the partial transaction's `id`, so the serialized
message carries that `id` field. -/
def Transaction.genTxMessage (tx : Transaction) (f : Fulfillment) (c : Condition) :
    Except TxError String := do
  let pt ← Transaction.init tx.operation (.asset tx.asset) (some [f]) (some [c])
    tx.metadata (some tx.timestamp) (some tx.version) "" ""
  .ok (serializeTxD (Transaction.removeSignaturesD pt.to_dict))

/-- `Transaction._sign_simple_signature_fulfillment` (lines 941-968) on
values: take the sole (first) `owners_before` key (`IndexError` when
empty), look up its private key (`KeyError` raises
`KeypairMismatchException`), and sign a copy of the fulfillment. -/
def Transaction.signSimple (f : Fulfillment) (kps : List (String × String))
    (message : String) : Except TxError Fulfillment :=
  match f.owners_before with
  | [] => .error .indexError
  | owner_before :: _ =>
      match kpLookup kps owner_before with
      | none => .error .keypairMismatch
      | some sk => .ok { f with fulfillment := f.fulfillment.sign message sk }

/-- The owner loop of `_sign_threshold_signature_fulfillment` (lines
983-1009): for each owner, locate a matching Ed25519 leaf
(`IndexError` → `KeypairMismatchException`), look up the private key
(`KeyError` → `KeypairMismatchException`), and sign that leaf in the
tree.  The final `none` branch of `signFirstLeaf` is unreachable once
`hasLeafVk` holds. -/
def Transaction.signThresholdOwners (cc : CCFulfillment) (owners : List String)
    (kps : List (String × String)) (message : String) : Except TxError CCFulfillment :=
  match owners with
  | [] => .ok cc
  | o :: rest =>
      if cc.hasLeafVk o then
        match kpLookup kps o with
        | none => .error .keypairMismatch
        | some sk =>
            match cc.signFirstLeaf o message sk with
            | some cc' => Transaction.signThresholdOwners cc' rest kps message
            | none => .error .keypairMismatch
      else .error .keypairMismatch

/-- `Transaction._sign_fulfillment` (lines 913-939): dispatch on the
claim's type; anything that is neither Ed25519 nor threshold raises
`ValueError`.  Returns the signed copy that is then installed at the
fulfillment's index. -/
def Transaction.signFfill (f : Fulfillment) (kps : List (String × String))
    (message : String) : Except TxError Fulfillment :=
  match f.fulfillment with
  | .ed25519 _ _ => Transaction.signSimple f kps message
  | .threshold _ _ => do
      .ok { f with fulfillment := ← Transaction.signThresholdOwners f.fulfillment f.owners_before kps message }
  | _ => .error .valueError

/-- One iteration of the `sign` loop (lines 898-910): build the message
from the partial transaction for this (fulfillment, condition) pair and
sign the fulfillment. -/
def Transaction.signStep (tx : Transaction) (kps : List (String × String))
    (f : Fulfillment) (c : Condition) : Except TxError Fulfillment := do
  Transaction.signFfill f kps (← tx.genTxMessage f c)

/-- The `sign` loop over the enumerated (fulfillment, condition) pairs,
threading the in-place updates of `self.fulfillments`; an exception
aborts the loop, keeping the updates made so far. -/
def Transaction.signLoop (tx : Transaction) (kps : List (String × String)) :
    List (Nat × Fulfillment × Condition) → List Fulfillment → List Fulfillment × Option TxError
  | [], fs => (fs, none)
  | (index, f, c) :: rest, fs =>
      match Transaction.signStep tx kps f c with
      | .error e => (fs, some e)
      | .ok f' => Transaction.signLoop tx kps rest (fs.set index f')

/-- `Transaction.sign` (lines 854-911): `TypeError` unless a list of
private keys is given; otherwise derive the key-pair mapping and run the
loop over `enumerate(zip(self.fulfillments, self.conditions))`.  The
result is the final state of `self` (partially signed when an error was
raised) together with the raised error, if any. -/
def Transaction.sign (tx : Transaction) (private_keys : Option (List String)) :
    Transaction × Option TxError :=
  match private_keys with
  | none => (tx, some .typeError)
  | some ks =>
      let kps := keyPairs ks
      let r := Transaction.signLoop tx kps ((tx.fulfillments.zip tx.conditions).enum) tx.fulfillments
      ({ tx with fulfillments := r.1 }, r.2)

/-! ### Validation pipeline -/

/-- `Transaction._fulfillment_valid` (lines 1087-1127): re-serialize and
re-parse the claim — any raise there (unsigned or corrupt claim) reports
`False`; otherwise validate the parsed claim against the partial
transaction message, AND (for `TRANSFER`) the fingerprint match between
the supplied input condition URI and the claim's `condition_uri`. -/
def Transaction.fulfillmentValid (fulfillment : Fulfillment) (operation : String)
    (tx_serialized : String) (input_condition_uri : String) : Bool :=
  match fulfillment.fulfillment.serializeParse with
  | none => false
  | some parsed_ffill =>
      let input_cond_valid :=
        if operation = Transaction.CREATE ∨ operation = Transaction.GENESIS then true
        else decide (input_condition_uri = fulfillment.fulfillment.conditionUri)
      parsed_ffill.validate tx_serialized && input_cond_valid

/-- The `all(map(gen_tx, ...))` loop of `_fulfillments_valid` (lines
1083-1085): per triple, build the partial-transaction message and run
`_fulfillment_valid`; `all` stops at the first `False`. -/
def Transaction.validIOList (tx : Transaction) :
    List (Fulfillment × Condition × String) → Except TxError Bool
  | [] => .ok true
  | (f, c, u) :: rest => do
      if Transaction.fulfillmentValid f tx.operation (← tx.genTxMessage f c) u then
        Transaction.validIOList tx rest
      else .ok false

/-- `Transaction._fulfillments_valid` (lines 1044-1085): the fulfillment,
condition and input-condition-URI counts must agree (`ValueError`
otherwise); then every per-index check must pass. -/
def Transaction.fulfillmentsValidList (tx : Transaction)
    (input_condition_uris : List String) : Except TxError Bool :=
  if tx.fulfillments.length = tx.conditions.length ∧
      tx.conditions.length = input_condition_uris.length then
    tx.validIOList (tx.fulfillments.zip (tx.conditions.zip input_condition_uris))
  else .error .valueError

/-- The `[cond.fulfillment.condition_uri for cond in input_conditions]`
comprehension (lines 1037-1038): `condition_uri` on a stored bare URI
string or other non-cryptocondition raises `AttributeError`. -/
def condUris : List Condition → Except TxError (List String)
  | [] => .ok []
  | c :: cs =>
      match c.fulfillment with
      | .cc f => do .ok (f.conditionUri :: (← condUris cs))
      | _ => .error .attributeError

/-- `Transaction.fulfillments_valid` (lines 1012-1042): dummy input
conditions for `CREATE`/`GENESIS`; for `TRANSFER` the fingerprint URIs of
the supplied prior Conditions (iterating a missing list raises
`TypeError`); any other operation raises `TypeError`. -/
def Transaction.fulfillments_valid (tx : Transaction)
    (input_conditions : Option (List Condition)) : Except TxError Bool :=
  if tx.operation = Transaction.CREATE ∨ tx.operation = Transaction.GENESIS then
    tx.fulfillmentsValidList (tx.fulfillments.map (fun _ => "dummyvalue"))
  else if tx.operation = Transaction.TRANSFER then
    match input_conditions with
    | none => .error .typeError
    | some conds => do
        tx.fulfillmentsValidList (← condUris conds)
  else .error .typeError

/-! ### Heap-instrumented signing

The aliasing discipline of the signing pipeline (deepcopy before signing,
install the copy by index, lines 953-968 and 982-1010) is observable only
at the level of object identity, so the pipeline is restated here over an
explicit store of `Fulfillment` cells: `self.fulfillments` becomes a list
of references into the store, `deepcopy` becomes allocation of a fresh
cell, and `.sign`'s in-place mutation becomes a write to the copied
cell. -/

/-- A heap of `Fulfillment` objects; a reference is an index into
`cells`. -/
structure FStore where
  cells : List Fulfillment
  deriving Repr

def FStore.read (s : FStore) (r : Nat) : Option Fulfillment := s.cells[r]?

/-- `deepcopy`: a fresh cell holding a copy of the value. -/
def FStore.alloc (s : FStore) (f : Fulfillment) : FStore × Nat :=
  (⟨s.cells ++ [f]⟩, s.cells.length)

/-- In-place mutation of the object behind `r`. -/
def FStore.write (s : FStore) (r : Nat) (f : Fulfillment) : FStore :=
  ⟨s.cells.set r f⟩

/-- One signing step over the store: read the fulfillment object, build
the message, deepcopy it, sign the copy (mutating only the copied cell),
and return the copy's reference for installation. -/
def Transaction.signStepS (tx : Transaction) (kps : List (String × String))
    (store : FStore) (r : Nat) (c : Condition) : Except TxError (FStore × Nat) :=
  match store.read r with
  | none => .error .indexError
  | some f => do
      let message ← tx.genTxMessage f c
      match f.fulfillment with
      | .ed25519 _ _ =>
          let a := store.alloc f
          match f.owners_before with
          | [] => .error .indexError
          | owner_before :: _ =>
              match kpLookup kps owner_before with
              | none => .error .keypairMismatch
              | some sk =>
                  .ok (a.1.write a.2 { f with fulfillment := f.fulfillment.sign message sk }, a.2)
      | .threshold _ _ =>
          let a := store.alloc f
          match Transaction.signThresholdOwners f.fulfillment f.owners_before kps message with
          | .error e => .error e
          | .ok cc' => .ok (a.1.write a.2 { f with fulfillment := cc' }, a.2)
      | _ => .error .valueError

/-- The `sign` loop over the store: `refs` is `self.fulfillments` as a
list of references; each successful step installs the signed copy's
reference at its index. -/
def Transaction.signLoopS (tx : Transaction) (kps : List (String × String)) :
    List (Nat × Nat × Condition) → FStore → List Nat → FStore × List Nat × Option TxError
  | [], store, refs => (store, refs, none)
  | (index, r, c) :: rest, store, refs =>
      match Transaction.signStepS tx kps store r c with
      | .error e => (store, refs, some e)
      | .ok (store', r') => Transaction.signLoopS tx kps rest store' (refs.set index r')

/-- `Transaction.sign` over the store model: `tx` supplies the immutable
ambient fields (operation, asset, metadata, timestamp, version); the
fulfillments live in `store` behind `refs`. -/
def Transaction.signS (tx : Transaction) (store : FStore) (refs : List Nat)
    (kps : List (String × String)) : FStore × List Nat × Option TxError :=
  Transaction.signLoopS tx kps ((refs.zip tx.conditions).enum) store refs

/-! ### Derived notions used by the statements below -/

/-- The owner list of a `generate` argument (after the tuple unpack of
lines 304-307). -/
def ownersOf : OwnersAfterArg → List OwnerSpec
  | .plain l => l
  | .withThreshold l _ => l

/-- Whether the owner list consists of exactly one threshold-wrapped
(tuple) entry — the single case in which `generate` reaches its
`except TypeError` fallback for a sublist-carrying entry. -/
def isSingleTupleTop : List OwnerSpec → Bool
  | [OwnerSpec.subT _ _] => true
  | _ => false

/-- The identifier `from_dict` recomputes for an input dictionary: the
digest of the signature-stripped canonical serialization of everything
but the claimed `id`. -/
def computedId (d : TxDict) : String :=
  hash_data (serializeTx (Transaction.removeSignatures ⟨d.version, d.transaction⟩))

/-- The single-input/single-output partial Transaction of the
signing/validation pipelines (lines 902-904 and 1066-1068), built
directly; `Transaction.init` with these arguments returns exactly this
value whenever the operation is allowed. -/
def Transaction.mkPartial (tx : Transaction) (f : Fulfillment) (c : Condition) : Transaction :=
  { version := tx.version, timestamp := tx.timestamp, operation := tx.operation
  , asset := tx.asset, fulfillments := [f], conditions := [c], metadata := tx.metadata }

/-- The signing/validation message for one (fulfillment, condition) pair:
the signature-stripped canonical serialization of the partial
transaction's dictionary (`id` included, as `to_dict` attaches it before
`_remove_signatures` runs). -/
def Transaction.ioMessage (tx : Transaction) (f : Fulfillment) (c : Condition) : String :=
  serializeTxD (Transaction.removeSignaturesD ((tx.mkPartial f c).to_dict))

/-- The signature-independent part of a Fulfillment — everything its
signature-stripped dictionary form depends on. -/
def fulfillmentSkel (f : Fulfillment) : List String × Option TransactionLink :=
  (f.owners_before, f.tx_input)

/-- The Fulfillment produced by decoding a Fulfillment's own dictionary
form: the claim and owners survive unchanged; the input link is
re-normalized through its dictionary form (a `None` input decodes to an
empty `TransactionLink` instance with the same dictionary form). -/
def normFulfillment (f : Fulfillment) : Fulfillment :=
  { fulfillment := f.fulfillment
  , owners_before := f.owners_before
  , tx_input := some (TransactionLink.from_dict (linkOut f.tx_input)) }

/-- The fingerprint URI of a Condition's stored claim, when that claim is
a cryptocondition. -/
def Condition.claimUri (c : Condition) : Option String :=
  match c.fulfillment with
  | .cc f => some f.conditionUri
  | _ => none

/-- The per-fulfillment failure conditions of claim C6: a simple
(Ed25519) claim whose first `owners_before` key has no supplied private
key, or a threshold claim with an owner for which no Ed25519 leaf can be
located or no private key exists. -/
def badKeypair (kps : List (String × String)) (f : Fulfillment) : Prop :=
  ((∃ pk s, f.fulfillment = CCFulfillment.ed25519 pk s) ∧
    (∃ o rest, f.owners_before = o :: rest ∧ kpLookup kps o = none)) ∨
  ((∃ t subs, f.fulfillment = CCFulfillment.threshold t subs) ∧
    (∃ o ∈ f.owners_before, f.fulfillment.hasLeafVk o = false ∨ kpLookup kps o = none))

/-! ### Sample values (used by the concrete witnesses below) -/

def samplePriv : String := "k1"

def samplePub : String := gen_public_key samplePriv

def sampleFulfillment : Fulfillment := ⟨.ed25519 samplePub none, [samplePub], none⟩

def sampleCondition : Condition := ⟨.cc (.ed25519 "bob" none), some [.key "bob"], 1⟩

def sampleTx : Transaction :=
  { version := 1, timestamp := "100", operation := "CREATE"
  , asset := ⟨none, "aid", false, false, false⟩
  , fulfillments := [sampleFulfillment]
  , conditions := [sampleCondition]
  , metadata := none }

/-- A prior Condition locking an output to `samplePub`. -/
def samplePrior : Condition := ⟨.cc (.ed25519 samplePub none), some [.key samplePub], 1⟩

/-- A `TRANSFER` transaction spending `samplePrior`. -/
def sampleTransfer : Transaction :=
  { version := 1, timestamp := "200", operation := "TRANSFER"
  , asset := ⟨none, "aid", false, false, false⟩
  , fulfillments := [⟨.ed25519 samplePub none, [samplePub], some ⟨some "prevtx", some 0⟩⟩]
  , conditions := [sampleCondition]
  , metadata := none }

/-- A `CREATE` transaction whose sole fulfillment names an owner no
supplied private key can match. -/
def sampleBadTx : Transaction :=
  { sampleTx with fulfillments := [⟨.ed25519 "alice" none, ["alice"], none⟩] }

/-! ## Theorems -/

theorem exceptBindOk {α β : Type} (v : α) (f : α → Except TxError β) :
    (Except.ok v >>= f) = f v := rfl

theorem exceptBindError {α β : Type} (e : TxError) (f : α → Except TxError β) :
    ((Except.error e : Except TxError α) >>= f) = Except.error e := rfl

/-- C9 (counterexample): the Fulfillment constructor performs no
non-emptiness check, so a Fulfillment with an empty `owners_before` is
constructed successfully — refuting the claim that such a construction
fails with an error. -/
theorem c9_empty_owners_constructs :
    (Fulfillment.init (.ed25519 "alice" none) [] none).owners_before = [] := rfl

/-- C9 (amended): the Fulfillment constructor never fails on typed
arguments; it stores the claim, the (possibly empty) `owners_before`
list and the input link unchanged. -/
theorem c9_init_stores_arguments (cc : CCFulfillment) (owners_before : List String)
    (tx_input : Option TransactionLink) :
    Fulfillment.init cc owners_before tx_input =
      { fulfillment := cc, owners_before := owners_before, tx_input := tx_input } := rfl

/-- C10: the Transaction constructor substitutes a fresh default Asset
(no payload, all three flags `False`, the freshly generated uuid as id)
exactly when called with operation `CREATE` and asset `None`; with
`TRANSFER` or `GENESIS` and asset `None`, or with a non-`Asset` value
under any allowed operation, it raises `TypeError` instead. -/
theorem c10_init_asset_handling (ffills : Option (List Fulfillment))
    (conds : Option (List Condition)) (meta : Option Metadata)
    (ts : Option String) (v : Option Nat) (fresh now : String) :
    (∃ tx, Transaction.init Transaction.CREATE .null ffills conds meta ts v fresh now = .ok tx
        ∧ tx.asset = ⟨none, fresh, false, false, false⟩)
    ∧ Transaction.init Transaction.TRANSFER .null ffills conds meta ts v fresh now =
        .error .typeError
    ∧ Transaction.init Transaction.GENESIS .null ffills conds meta ts v fresh now =
        .error .typeError
    ∧ Transaction.init Transaction.CREATE .nonAsset ffills conds meta ts v fresh now =
        .error .typeError
    ∧ Transaction.init Transaction.TRANSFER .nonAsset ffills conds meta ts v fresh now =
        .error .typeError
    ∧ Transaction.init Transaction.GENESIS .nonAsset ffills conds meta ts v fresh now =
        .error .typeError := by
  refine ⟨?_, ?_, ?_, ?_, ?_, ?_⟩ <;>
    simp [Transaction.init, Transaction.ALLOWED_OPERATIONS, Transaction.CREATE,
      Transaction.TRANSFER, Transaction.GENESIS, Asset.init]

mutual

theorem genCondStep_short : ∀ (initial : CCFulfillment) (x : OwnerSpec),
    x.hasShortSub = true → genCondStep initial x = .error .valueError
  | initial, .key pk => by simp [OwnerSpec.hasShortSub]
  | initial, .cond f => by simp [OwnerSpec.hasShortSub]
  | initial, .sub l => by
      intro h
      simp only [OwnerSpec.hasShortSub, Bool.or_eq_true, decide_eq_true_eq] at h
      simp only [genCondStep]
      by_cases hl : 1 < l.length
      · rw [if_pos hl, genFold_short (.threshold l.length []) l (by
          rcases h with h | h
          · omega
          · exact h)]
        rfl
      · rw [if_neg hl]
  | initial, .subT l t => by
      intro h
      simp only [OwnerSpec.hasShortSub, Bool.or_eq_true, decide_eq_true_eq] at h
      simp only [genCondStep]
      by_cases hl : 1 < l.length
      · rw [if_pos hl, genFold_short (.threshold t []) l (by
          rcases h with h | h
          · omega
          · exact h)]
        rfl
      · rw [if_neg hl]

theorem genCondStep_ok : ∀ (initial : CCFulfillment) (x : OwnerSpec),
    x.hasShortSub = false → ∃ y, genCondStep initial x = .ok y
  | initial, .key pk => fun _ => ⟨initial.addSub (.ed25519 pk none), rfl⟩
  | initial, .cond f => fun _ => ⟨initial.addSub f, rfl⟩
  | initial, .sub l => by
      intro h
      simp only [OwnerSpec.hasShortSub, Bool.or_eq_false_iff, decide_eq_false_iff_not,
        Nat.not_le] at h
      obtain ⟨y, hy⟩ := genFold_ok (.threshold l.length []) l h.2
      refine ⟨initial.addSub y, ?_⟩
      simp only [genCondStep, if_pos h.1, hy, exceptBindOk]
  | initial, .subT l t => by
      intro h
      simp only [OwnerSpec.hasShortSub, Bool.or_eq_false_iff, decide_eq_false_iff_not,
        Nat.not_le] at h
      obtain ⟨y, hy⟩ := genFold_ok (.threshold t []) l h.2
      refine ⟨initial.addSub y, ?_⟩
      simp only [genCondStep, if_pos h.1, hy, exceptBindOk]

theorem genFold_short : ∀ (acc : CCFulfillment) (l : List OwnerSpec),
    OwnerSpec.hasShortSubList l = true → genFold acc l = .error .valueError
  | acc, [] => by simp [OwnerSpec.hasShortSubList]
  | acc, x :: xs => by
      intro h
      simp only [OwnerSpec.hasShortSubList, Bool.or_eq_true] at h
      by_cases hx : x.hasShortSub = true
      · simp only [genFold, genCondStep_short acc x hx, exceptBindError]
      · have hx' : x.hasShortSub = false := by
          cases hb : x.hasShortSub
          · rfl
          · exact absurd hb hx
        obtain ⟨y, hy⟩ := genCondStep_ok acc x hx'
        have hxs : OwnerSpec.hasShortSubList xs = true := by
          rcases h with h | h
          · exact absurd h hx
          · exact h
        simp only [genFold, hy, exceptBindOk]
        exact genFold_short y xs hxs

theorem genFold_ok : ∀ (acc : CCFulfillment) (l : List OwnerSpec),
    OwnerSpec.hasShortSubList l = false → ∃ y, genFold acc l = .ok y
  | acc, [] => fun _ => ⟨acc, rfl⟩
  | acc, x :: xs => by
      intro h
      simp only [OwnerSpec.hasShortSubList, Bool.or_eq_false_iff] at h
      obtain ⟨y, hy⟩ := genCondStep_ok acc x h.1
      obtain ⟨z, hz⟩ := genFold_ok y xs h.2
      exact ⟨z, by simp only [genFold, hy, exceptBindOk, hz]⟩

end

/-- C8 (counterexample): the specification `[(['a'], 1)]` — a sole
top-level entry that is a threshold-wrapped sublist with a single owner —
contains a nested sublist with fewer than two entries, yet
`Condition.generate` succeeds on it: the tuple is not a Python `list`,
so the single-entry branch treats it as an opaque cryptocondition via
the `except TypeError` fallback and stores it unvalidated. -/
theorem c8_single_tuple_escapes :
    (OwnerSpec.subT [.key "a"] 1).hasShortSub = true ∧
    Condition.generate (.plain [.subT [.key "a"] 1]) =
      .ok ⟨.pyObj (.subT [.key "a"] 1), some [.subT [.key "a"] 1], 1⟩ := by
  constructor
  · simp [OwnerSpec.hasShortSub]
  · rfl

/-- C8 (amended): `Condition.generate` fails with an
`InvalidArgument`-kind error (`ValueError`) for every empty owner
sequence, and for every owner specification containing a nested sublist
with fewer than two entries — except when the specification's sole
top-level entry is a threshold-wrapped (tuple) sublist, which the
single-entry branch accepts unvalidated as if it were an opaque
cryptocondition. -/
theorem c8_generate_invalid_argument (arg : OwnersAfterArg)
    (h : ownersOf arg = [] ∨
      (OwnerSpec.hasShortSubList (ownersOf arg) = true ∧ isSingleTupleTop (ownersOf arg) = false)) :
    Condition.generate arg = .error .valueError := by
  have hsplit : ∀ (l : List OwnerSpec) (t : Nat),
      (l = [] ∨ (OwnerSpec.hasShortSubList l = true ∧ isSingleTupleTop l = false)) →
      Condition.generate (OwnersAfterArg.withThreshold l t) = .error .valueError := by
    intro l t hl
    match l with
    | [] => rfl
    | [el] =>
        rcases hl with hl | ⟨hshort, htop⟩
        · exact absurd hl (by simp)
        · simp only [OwnerSpec.hasShortSubList, Bool.or_eq_true] at hshort
          have hshort' : el.hasShortSub = true := by
            rcases hshort with h' | h'
            · exact h'
            · simp [OwnerSpec.hasShortSubList] at h'
          match el with
          | .key pk => simp [OwnerSpec.hasShortSub] at hshort'
          | .cond f => simp [OwnerSpec.hasShortSub] at hshort'
          | .subT l' t' => simp [isSingleTupleTop] at htop
          | .sub l' =>
              show Condition.generate (.withThreshold [OwnerSpec.sub l'] t) = _
              simp only [Condition.generate, ownersOf, OwnerSpec.isList, if_pos]
              rw [genFold_short _ _ (by simp [OwnerSpec.hasShortSubList, hshort'])]
              rfl
    | el1 :: el2 :: rest =>
        rcases hl with hl | ⟨hshort, _⟩
        · exact absurd hl (by simp)
        · show Condition.generate (.withThreshold (el1 :: el2 :: rest) t) = _
          simp only [Condition.generate]
          rw [genFold_short _ _ hshort]
          rfl
  match arg with
  | .plain l =>
      have := hsplit l l.length (by simpa [ownersOf] using h)
      rcases h with h | ⟨hshort, htop⟩
      · simp only [ownersOf] at h
        subst h
        rfl
      · simp only [ownersOf] at hshort htop
        match l, hshort, htop with
        | [el], hshort, htop =>
            simp only [OwnerSpec.hasShortSubList, Bool.or_eq_true] at hshort
            have hshort' : el.hasShortSub = true := by
              rcases hshort with h' | h'
              · exact h'
              · simp [OwnerSpec.hasShortSubList] at h'
            match el with
            | .key pk => simp [OwnerSpec.hasShortSub] at hshort'
            | .cond f => simp [OwnerSpec.hasShortSub] at hshort'
            | .subT l' t' => simp [isSingleTupleTop] at htop
            | .sub l' =>
                show Condition.generate (.plain [OwnerSpec.sub l']) = _
                simp only [Condition.generate, OwnerSpec.isList, if_pos]
                rw [genFold_short _ _ (by simp [OwnerSpec.hasShortSubList, hshort'])]
                rfl
        | el1 :: el2 :: rest, hshort, _ =>
            show Condition.generate (.plain (el1 :: el2 :: rest)) = _
            simp only [Condition.generate]
            rw [genFold_short _ _ hshort]
            rfl
  | .withThreshold l t => exact hsplit l t (by simpa [ownersOf] using h)

/-- Witness for the amended C8: a two-entry specification containing a
single-owner sublist is rejected with `ValueError`. -/
theorem c8_generate_invalid_argument_witness :
    (ownersOf (.plain [.sub [.key "a"], .key "b"]) = [] ∨
      (OwnerSpec.hasShortSubList (ownersOf (.plain [.sub [.key "a"], .key "b"])) = true ∧
        isSingleTupleTop (ownersOf (.plain [.sub [.key "a"], .key "b"])) = false)) ∧
    Condition.generate (.plain [.sub [.key "a"], .key "b"]) = .error .valueError := by
  have h : ownersOf (.plain [.sub [.key "a"], .key "b"]) = [] ∨
      (OwnerSpec.hasShortSubList (ownersOf (.plain [.sub [.key "a"], .key "b"])) = true ∧
        isSingleTupleTop (ownersOf (.plain [.sub [.key "a"], .key "b"])) = false) := by
    refine Or.inr ⟨?_, rfl⟩
    simp [ownersOf, OwnerSpec.hasShortSubList, OwnerSpec.hasShortSub]
  exact ⟨h, c8_generate_invalid_argument _ h⟩

/-- C7: a Fulfillment whose claim cannot be re-serialized and re-parsed
(`serialize_uri`/`from_uri` raises — the unsigned/corrupt case) makes the
per-pair check report `False` for every operation, message and input
condition URI; the check is a total Boolean function, so validation
never propagates an error for such claims. -/
theorem c7_unparseable_claim_invalid (f : Fulfillment) (op ser uri : String)
    (h : f.fulfillment.serializeParse = none) :
    Transaction.fulfillmentValid f op ser uri = false := by
  simp [Transaction.fulfillmentValid, h]

/-- Witness for C7: an unsigned Ed25519 claim does not serialize, and its
per-pair validation reports `False`. -/
theorem c7_unparseable_claim_invalid_witness :
    (Fulfillment.mk (.ed25519 "a" none) ["a"] none).fulfillment.serializeParse = none ∧
    Transaction.fulfillmentValid ⟨.ed25519 "a" none, ["a"], none⟩ "CREATE" "msg" "uri" = false := by
  have h : (Fulfillment.mk (.ed25519 "a" none) ["a"] none).fulfillment.serializeParse = none := by
    simp [CCFulfillment.serializeParse, CCFulfillment.isSigned]
  exact ⟨h, c7_unparseable_claim_invalid _ _ _ _ h⟩

theorem ffillsFromDict_error_ne_invalidHash (l : List FulfillmentSer) (e : TxError)
    (h : ffillsFromDict l = .error e) : e ≠ TxError.invalidHash := by
  induction l with
  | nil => simp [ffillsFromDict] at h
  | cons x xs ih =>
      simp only [ffillsFromDict] at h
      cases hx : Fulfillment.from_dict x with
      | error e' =>
          rw [hx, exceptBindError] at h
          cases h
          cases hr : x.fulfillment <;>
            simp only [Fulfillment.from_dict, hr, exceptBindError, exceptBindOk] at hx <;>
            cases hx <;> simp
      | ok f =>
          rw [hx, exceptBindOk] at h
          cases hxs : ffillsFromDict xs with
          | error e' =>
              rw [hxs, exceptBindError] at h
              cases h
              exact ih hxs
          | ok fs => rw [hxs, exceptBindOk] at h; cases h

theorem init_error_ne_invalidHash (operation : String) (asset : AssetArg)
    (ffills : Option (List Fulfillment)) (conds : Option (List Condition))
    (meta : Option Metadata) (ts : Option String) (v : Option Nat) (fresh now : String)
    (e : TxError)
    (h : Transaction.init operation asset ffills conds meta ts v fresh now = .error e) :
    e ≠ TxError.invalidHash := by
  simp only [Transaction.init] at h
  split at h
  · split at h
    · cases h
    · cases h; simp
  · cases h; simp

/-- C1: `from_dict` fails with `InvalidHash` exactly when the stated `id`
is absent or differs from the identifier recomputed by hashing the
signature-stripped canonical serialization of the remaining fields; and
whenever it does return a Transaction, the stated `id` equals the
recomputed identifier (later stages can fail, but only with other error
kinds). -/
theorem c1_from_dict_invalid_hash (d : TxDict) (fresh : String) :
    (Transaction.from_dict d fresh = .error .invalidHash ↔ d.id ≠ some (computedId d))
    ∧ (∀ tx, Transaction.from_dict d fresh = .ok tx → d.id = some (computedId d)) := by
  cases hid : d.id with
  | none =>
      constructor
      · simp [Transaction.from_dict, hid, exceptBindError]
      · intro tx htx
        simp [Transaction.from_dict, hid, exceptBindError] at htx
  | some p =>
      have hred : Transaction.from_dict d fresh =
          if p = computedId d then
            (ffillsFromDict d.transaction.fulfillments >>= fun fs =>
              Transaction.init d.transaction.operation
                (.asset (Asset.from_dict d.transaction.asset)) (some fs)
                (some (d.transaction.conditions.map Condition.from_dict))
                (some (Metadata.from_dict d.transaction.metadata fresh))
                (some d.transaction.timestamp) (some d.version) "" "")
          else .error .invalidHash := by
        simp only [Transaction.from_dict, hid, exceptBindOk, computedId]
        by_cases hp : p =
            hash_data (serializeTx (Transaction.removeSignatures ⟨d.version, d.transaction⟩))
        · simp only [hp, ne_eq, not_true_eq_false, if_false, ite_true, if_pos]
        · simp only [hp, ne_eq, not_false_eq_true, if_true, ite_false, if_neg]
      rw [hred]
      by_cases hp : p = computedId d
      · rw [if_pos hp]
        constructor
        · simp only [hp, ne_eq, not_true_eq_false, iff_false]
          intro hcontra
          cases hff : ffillsFromDict d.transaction.fulfillments with
          | error e =>
              rw [hff, exceptBindError] at hcontra
              cases hcontra
              exact ffillsFromDict_error_ne_invalidHash _ _ hff rfl
          | ok fs =>
              rw [hff, exceptBindOk] at hcontra
              exact init_error_ne_invalidHash _ _ _ _ _ _ _ _ _ _ hcontra rfl
        · intro tx _
          rw [hp]
      · rw [if_neg hp]
        constructor
        · simp [hp]
        · intro tx htx
          cases htx

theorem listSetSelf {α : Type} : ∀ (l : List α) (j : Nat) (v : α),
    l[j]? = some v → l.set j v = l
  | [], j, v => by simp
  | x :: xs, 0, v => by
      intro h
      simp only [List.getElem?_cons_zero, Option.some.injEq] at h
      simp [h]
  | x :: xs, j + 1, v => by
      intro h
      simp only [List.getElem?_cons_succ] at h
      simp only [List.set_cons_succ, List.cons.injEq, true_and]
      exact listSetSelf xs j v h

theorem signStep_skel (tx : Transaction) (kps : List (String × String)) (f : Fulfillment)
    (c : Condition) (f' : Fulfillment) (h : Transaction.signStep tx kps f c = .ok f') :
    fulfillmentSkel f' = fulfillmentSkel f := by
  simp only [Transaction.signStep] at h
  cases hm : tx.genTxMessage f c with
  | error e => rw [hm, exceptBindError] at h; cases h
  | ok msg =>
      rw [hm, exceptBindOk] at h
      simp only [Transaction.signFfill] at h
      cases hf : f.fulfillment with
      | ed25519 pk s =>
          simp only [hf, Transaction.signSimple] at h
          cases ho : f.owners_before with
          | nil => simp [ho] at h
          | cons o rest =>
              simp only [ho] at h
              cases hk : kpLookup kps o with
              | none => simp [hk] at h
              | some sk =>
                  simp only [hk] at h
                  cases h
                  simp [fulfillmentSkel, ho]
      | threshold t subs =>
          simp only [hf] at h
          cases hst : Transaction.signThresholdOwners (CCFulfillment.threshold t subs)
              f.owners_before kps msg with
          | error e => rw [hst, exceptBindError] at h; cases h
          | ok cc' =>
              rw [hst, exceptBindOk] at h
              cases h
              rfl
      | preimage p =>
          simp only [hf] at h
          cases h

theorem signLoop_skel (tx : Transaction) (kps : List (String × String)) :
    ∀ (pairs : List (Nat × Fulfillment × Condition)) (fs : List Fulfillment),
    (∀ q ∈ pairs, (fs.map fulfillmentSkel)[q.1]? = some (fulfillmentSkel q.2.1)) →
    (Transaction.signLoop tx kps pairs fs).1.map fulfillmentSkel = fs.map fulfillmentSkel := by
  intro pairs
  induction pairs with
  | nil => intro fs _; rfl
  | cons q rest ih =>
      intro fs hp
      obtain ⟨j, f, c⟩ := q
      simp only [Transaction.signLoop]
      cases hs : Transaction.signStep tx kps f c with
      | error e => rfl
      | ok f' =>
          have hskel : fulfillmentSkel f' = fulfillmentSkel f := signStep_skel _ _ _ _ _ hs
          have hset : (fs.set j f').map fulfillmentSkel = fs.map fulfillmentSkel := by
            rw [List.map_set, hskel]
            exact listSetSelf _ _ _ (hp (j, f, c) (List.mem_cons_self _ _))
          have hpre : ∀ q ∈ rest,
              ((fs.set j f').map fulfillmentSkel)[q.1]? = some (fulfillmentSkel q.2.1) := by
            intro q hq
            rw [hset]
            exact hp q (List.mem_cons_of_mem _ hq)
          rw [ih (fs.set j f') hpre, hset]

theorem stripDictFrom_eq : ∀ (n : Nat) (fs fs' : List Fulfillment),
    fs.map fulfillmentSkel = fs'.map fulfillmentSkel →
    ((List.enumFrom n fs).map (fun p => p.2.to_dict (some p.1))).map
        (fun x => { x with fulfillment := FfillRepr.null }) =
    ((List.enumFrom n fs').map (fun p => p.2.to_dict (some p.1))).map
        (fun x => { x with fulfillment := FfillRepr.null })
  | n, [], [] => by intro h; rfl
  | n, [], y :: ys => by intro h; simp at h
  | n, x :: xs, [] => by intro h; simp at h
  | n, x :: xs, y :: ys => by
      intro h
      simp only [List.map_cons, List.cons.injEq] at h
      have hob : x.owners_before = y.owners_before := by
        have := congrArg Prod.fst h.1
        simpa [fulfillmentSkel] using this
      have hin : x.tx_input = y.tx_input := by
        have := congrArg Prod.snd h.1
        simpa [fulfillmentSkel] using this
      simp only [List.enumFrom, List.map_cons, List.cons.injEq]
      refine ⟨?_, stripDictFrom_eq (n + 1) xs ys h.2⟩
      simp [Fulfillment.to_dict, hob, hin]

theorem to_hash_congr (a b : Transaction) (hv : a.version = b.version)
    (ht : a.timestamp = b.timestamp) (hop : a.operation = b.operation)
    (has : a.asset = b.asset) (hc : a.conditions = b.conditions)
    (hm : a.metadata = b.metadata)
    (hf : a.fulfillments.map fulfillmentSkel = b.fulfillments.map fulfillmentSkel) :
    a.to_hash = b.to_hash := by
  have hfe := stripDictFrom_eq 0 a.fulfillments b.fulfillments hf
  simp only [Transaction.to_hash, Transaction.removeSignatures, Transaction.noIdDict,
    stripBody, List.enum]
  rw [hv, ht, hop, has, hc, hm, hfe]

/-- C4: the identifier attached by `to_dict` is the digest of the
encoding in which every fulfillment's signed-claim field has been
replaced by the `None` placeholder; consequently `sign` — which replaces
fulfillment entries by signed copies differing only in that claim field —
leaves the transaction's identifier unchanged, whether it succeeds or
aborts part-way. -/
theorem c4_sign_preserves_id (tx : Transaction) (ks : Option (List String)) :
    (tx.to_dict).id = some (hash_data (serializeTx (Transaction.removeSignatures tx.noIdDict)))
    ∧ ((tx.sign ks).1).to_hash = tx.to_hash := by
  refine ⟨rfl, ?_⟩
  cases ks with
  | none => rfl
  | some l =>
      simp only [Transaction.sign]
      have hmap : (Transaction.signLoop tx (keyPairs l)
          ((tx.fulfillments.zip tx.conditions).enum) tx.fulfillments).1.map fulfillmentSkel =
          tx.fulfillments.map fulfillmentSkel := by
        apply signLoop_skel
        intro q hq
        have h1 : (tx.fulfillments.zip tx.conditions)[q.1]? = some q.2 :=
          List.mem_enum_iff_getElem?.mp hq
        have h2 : tx.fulfillments.get? q.1 = some q.2.1 :=
          ((List.get?_zip_eq_some _ _ _ _).mp (by simpa [List.get?_eq_getElem?] using h1)).1
        rw [List.getElem?_map]
        rw [List.get?_eq_getElem?] at h2
        rw [h2]
        rfl
      exact to_hash_congr _ _ rfl rfl rfl rfl rfl rfl hmap

theorem linkOut_norm (o : Option TransactionLink) :
    linkOut (some (TransactionLink.from_dict (linkOut o))) = linkOut o := by
  cases o with
  | none => rfl
  | some l =>
      obtain ⟨txid, cid⟩ := l
      cases txid <;> cases cid <;> rfl

theorem ffill_round (f : Fulfillment) (fid : Option Nat) :
    Fulfillment.from_dict (f.to_dict fid) = .ok (normFulfillment f) := by
  by_cases hsig : f.fulfillment.isSigned
  · simp [Fulfillment.to_dict, Fulfillment.from_dict, CCFulfillment.serializeParse, hsig,
      normFulfillment, exceptBindOk]
  · simp [Fulfillment.to_dict, Fulfillment.from_dict, CCFulfillment.serializeParse, hsig,
      normFulfillment, exceptBindOk]

theorem ffill_norm_to_dict (f : Fulfillment) (fid : Option Nat) :
    (normFulfillment f).to_dict fid = f.to_dict fid := by
  simp only [Fulfillment.to_dict, normFulfillment, linkOut_norm]

theorem ffillsFromDict_map : ∀ (l : List (Nat × Fulfillment)),
    ffillsFromDict (l.map (fun p => p.2.to_dict (some p.1))) =
      .ok (l.map (fun p => normFulfillment p.2))
  | [] => rfl
  | p :: rest => by
      simp only [List.map_cons, ffillsFromDict, ffill_round, exceptBindOk,
        ffillsFromDict_map rest]

theorem cond_round (c : Condition) (cid : Option Nat) :
    Condition.from_dict (c.to_dict cid) = c := by
  cases hc : c.fulfillment <;>
    simp only [Condition.to_dict, Condition.from_dict, hc] <;>
    (rw [← hc])

theorem conds_round (cs : List Condition) :
    (cs.enum.map (fun p => p.2.to_dict (some p.1))).map Condition.from_dict = cs := by
  rw [List.map_map]
  have h : ∀ p : Nat × Condition, (Condition.from_dict ∘ fun p : Nat × Condition =>
      p.2.to_dict (some p.1)) p = Prod.snd p := by
    intro p
    exact cond_round p.2 (some p.1)
  rw [List.map_congr_left (fun p _ => h p), List.enum_map_snd]

theorem metaOut_norm (m : Option Metadata) (fresh : String) :
    metaOut (some (Metadata.from_dict (metaOut m) fresh)) = metaOut m := by
  cases m with
  | none => rfl
  | some md =>
      obtain ⟨data, data_id⟩ := md
      cases data <;> rfl

theorem ffills_norm_enum : ∀ (n : Nat) (fs : List Fulfillment),
    (List.enumFrom n (fs.map normFulfillment)).map (fun p => p.2.to_dict (some p.1)) =
      (List.enumFrom n fs).map (fun p => p.2.to_dict (some p.1))
  | n, [] => rfl
  | n, f :: rest => by
      simp only [List.map_cons, List.enumFrom, List.map_cons, List.cons.injEq]
      exact ⟨ffill_norm_to_dict f (some n), ffills_norm_enum (n + 1) rest⟩

/-- C2: decoding a Transaction's own dictionary form succeeds (the
identifier check passes) and produces a Transaction whose dictionary
form — the code's notion of equality, including the attached
identifier — coincides with the original's. -/
theorem c2_roundtrip (tx : Transaction) (fresh : String)
    (hop : tx.operation ∈ Transaction.ALLOWED_OPERATIONS) :
    ∃ tx', Transaction.from_dict tx.to_dict fresh = .ok tx' ∧ tx'.to_dict = tx.to_dict := by
  refine ⟨{ version := tx.version, timestamp := tx.timestamp, operation := tx.operation,
            asset := Asset.from_dict (Transaction.noIdDict tx).transaction.asset,
            fulfillments := tx.fulfillments.map normFulfillment,
            conditions := tx.conditions,
            metadata := some (Metadata.from_dict (metaOut tx.metadata) fresh) }, ?_, ?_⟩
  · simp only [Transaction.from_dict, Transaction.to_dict, exceptBindOk]
    rw [if_neg (by exact fun h => h rfl)]
    have hff : ffillsFromDict (Transaction.noIdDict tx).transaction.fulfillments =
        .ok (tx.fulfillments.map normFulfillment) := by
      show ffillsFromDict (tx.fulfillments.enum.map (fun p => p.2.to_dict (some p.1))) = _
      rw [ffillsFromDict_map]
      congr 1
      conv_rhs => rw [← List.enum_map_snd tx.fulfillments]
      rw [List.map_map]
      rfl
    rw [hff, exceptBindOk]
    have hcr : (Transaction.noIdDict tx).transaction.conditions.map Condition.from_dict =
        tx.conditions := by
      show (tx.conditions.enum.map (fun p => p.2.to_dict (some p.1))).map
        Condition.from_dict = tx.conditions
      exact conds_round tx.conditions
    rw [hcr]
    simp only [Transaction.init]
    rw [if_pos (show (Transaction.noIdDict tx).transaction.operation ∈
      Transaction.ALLOWED_OPERATIONS from hop)]
    rfl
  · have hno : Transaction.noIdDict
        { version := tx.version, timestamp := tx.timestamp,
          operation := tx.operation,
          asset := Asset.from_dict (Transaction.noIdDict tx).transaction.asset,
          fulfillments := tx.fulfillments.map normFulfillment,
          conditions := tx.conditions,
          metadata := some (Metadata.from_dict (metaOut tx.metadata) fresh) } =
        Transaction.noIdDict tx := by
      simp only [Transaction.noIdDict, metaOut_norm, TxNoId.mk.injEq, TxBody.mk.injEq,
        true_and, and_true]
      refine ⟨?_, ?_⟩
      · by_cases hcg : tx.operation = Transaction.GENESIS ∨ tx.operation = Transaction.CREATE
        · rw [if_pos hcg, if_pos hcg]
          show AssetRepr.full (Asset.from_dict (AssetRepr.full tx.asset.to_dict)).to_dict = _
          obtain ⟨d, i, dv, u, r⟩ := tx.asset
          rfl
        · rw [if_neg hcg, if_neg hcg]
          show AssetRepr.idOnly (Asset.from_dict (AssetRepr.idOnly tx.asset.data_id)).data_id = _
          rfl
      · simp only [List.enum]
        exact ffills_norm_enum 0 tx.fulfillments
    simp only [Transaction.to_dict, Transaction.to_hash, hno]

mutual

theorem validate_imp_isSigned : ∀ (f : CCFulfillment) (msg : String),
    f.validate msg = true → f.isSigned = true
  | .ed25519 pk sig, msg => by
      cases sig <;> simp [CCFulfillment.validate, CCFulfillment.isSigned]
  | .threshold t subs, msg => by
      simp only [CCFulfillment.validate, CCFulfillment.isSigned, decide_eq_true_eq]
      intro h
      exact le_trans h (countValid_le_countSigned subs msg)
  | .preimage p, msg => by
      simp [CCFulfillment.isSigned]

theorem countValid_le_countSigned : ∀ (l : List CCFulfillment) (msg : String),
    CCFulfillment.countValid l msg ≤ CCFulfillment.countSigned l
  | [], msg => by simp [CCFulfillment.countValid, CCFulfillment.countSigned]
  | f :: fs, msg => by
      have ih := countValid_le_countSigned fs msg
      simp only [CCFulfillment.countValid, CCFulfillment.countSigned]
      by_cases hv : f.validate msg = true
      · rw [if_pos hv, if_pos (validate_imp_isSigned f msg hv)]
        omega
      · rw [if_neg hv]
        cases hs : f.isSigned <;> simp <;> omega

end

theorem fulfillmentValid_eq (f : Fulfillment) (op ser uri : String) :
    Transaction.fulfillmentValid f op ser uri =
      (f.fulfillment.validate ser &&
        (if op = Transaction.CREATE ∨ op = Transaction.GENESIS then true
         else decide (uri = f.fulfillment.conditionUri))) := by
  simp only [Transaction.fulfillmentValid, CCFulfillment.serializeParse]
  by_cases hs : f.fulfillment.isSigned
  · rw [if_pos hs]
  · rw [if_neg hs]
    cases hv : f.fulfillment.validate ser
    · simp
    · exact absurd (validate_imp_isSigned _ _ hv) (by simpa using hs)

theorem genTxMessage_ok (tx : Transaction) (f : Fulfillment) (c : Condition)
    (hop : tx.operation ∈ Transaction.ALLOWED_OPERATIONS) :
    tx.genTxMessage f c = .ok (tx.ioMessage f c) := by
  simp only [Transaction.genTxMessage, Transaction.init]
  rw [if_pos hop]
  rfl

theorem validIOList_eq (tx : Transaction)
    (hop : tx.operation ∈ Transaction.ALLOWED_OPERATIONS) :
    ∀ (l : List (Fulfillment × Condition × String)),
    tx.validIOList l = .ok (l.all (fun p =>
      Transaction.fulfillmentValid p.1 tx.operation (tx.ioMessage p.1 p.2.1) p.2.2))
  | [] => rfl
  | (f, c, u) :: rest => by
      simp only [Transaction.validIOList, genTxMessage_ok tx f c hop, exceptBindOk]
      cases hb : Transaction.fulfillmentValid f tx.operation (tx.ioMessage f c) u
      · simp [hb]
      · simp only [if_pos rfl, List.all_cons, hb, Bool.true_and]
        exact validIOList_eq tx hop rest

theorem condUris_map (conds : List Condition)
    (h : ∀ c ∈ conds, ∃ f, c.fulfillment = CondFfill.cc f) :
    condUris conds = .ok (conds.map (fun c => c.claimUri.getD "")) := by
  induction conds with
  | nil => rfl
  | cons c cs ih =>
      obtain ⟨f, hf⟩ := h c (List.mem_cons_self _ _)
      simp only [condUris, hf, List.map_cons,
        ih (fun x hx => h x (List.mem_cons_of_mem _ hx)), exceptBindOk]
      simp [Condition.claimUri, hf]

theorem all_zip3_iff (fs : List Fulfillment) (cs : List Condition) (us : List String)
    (step : Fulfillment × Condition × String → Bool) :
    ((fs.zip (cs.zip us)).all step = true ↔
      ∀ (i : Nat) f c u, fs[i]? = some f → cs[i]? = some c → us[i]? = some u →
        step (f, c, u) = true) := by
  rw [List.all_eq_true]
  constructor
  · intro hall i f c u hf hc hu
    have hcu : (cs.zip us).get? i = some (c, u) := by
      rw [List.get?_zip_eq_some]
      constructor <;> simpa [List.get?_eq_getElem?]
    have hz : (fs.zip (cs.zip us)).get? i = some (f, (c, u)) := by
      rw [List.get?_zip_eq_some]
      constructor
      · simpa [List.get?_eq_getElem?]
      · exact hcu
    exact hall _ (List.get?_mem hz)
  · intro hR p hp
    obtain ⟨i, hi⟩ := List.mem_iff_get?.mp hp
    obtain ⟨h1, h23⟩ := (List.get?_zip_eq_some _ _ _ _).mp hi
    obtain ⟨h2, h3⟩ := (List.get?_zip_eq_some _ _ _ _).mp h23
    have := hR i p.1 p.2.1 p.2.2 (by simpa [List.get?_eq_getElem?] using h1)
      (by simpa [List.get?_eq_getElem?] using h2)
      (by simpa [List.get?_eq_getElem?] using h3)
    simpa using this

/-- C3: for a `TRANSFER` transaction with one supplied prior Condition
per Fulfillment (and matching own condition count), `fulfillments_valid`
returns `True` iff at every index (a) the signatures embedded in the
Fulfillment's claim verify against the serialized signature-stripped
single-input/single-output partial transaction for that index, and
(b) the claim's fingerprint URI equals the supplied prior Condition's
fingerprint URI — the logical AND across all indices. -/
theorem c3_transfer_valid_iff (tx : Transaction) (conds : List Condition)
    (hop : tx.operation = Transaction.TRANSFER)
    (hcc : ∀ c ∈ conds, ∃ f, c.fulfillment = CondFfill.cc f)
    (h1 : tx.fulfillments.length = tx.conditions.length)
    (h2 : tx.conditions.length = conds.length) :
    tx.fulfillments_valid (some conds) = .ok true ↔
      ∀ (i : Nat) f c pc, tx.fulfillments[i]? = some f → tx.conditions[i]? = some c →
        conds[i]? = some pc →
        (f.fulfillment.validate (tx.ioMessage f c) = true ∧
          pc.claimUri = some f.fulfillment.conditionUri) := by
  have hopA : tx.operation ∈ Transaction.ALLOWED_OPERATIONS := by
    rw [hop]
    simp [Transaction.ALLOWED_OPERATIONS]
  have hne : ¬(tx.operation = Transaction.CREATE ∨ tx.operation = Transaction.GENESIS) := by
    rw [hop]
    decide
  unfold Transaction.fulfillments_valid
  rw [if_neg hne, if_pos hop]
  show (condUris conds >>= fun uris => tx.fulfillmentsValidList uris) = .ok true ↔ _
  rw [condUris_map conds hcc, exceptBindOk]
  simp only [Transaction.fulfillmentsValidList]
  rw [if_pos ⟨h1, by simpa using h2⟩]
  rw [validIOList_eq tx hopA]
  simp only [Except.ok.injEq]
  rw [all_zip3_iff]
  constructor
  · intro hall i f c pc hf hc hpc
    have hu : (conds.map (fun c => c.claimUri.getD ""))[i]? = some (pc.claimUri.getD "") := by
      rw [List.getElem?_map, hpc]
      rfl
    have hstep := hall i f c (pc.claimUri.getD "") hf hc hu
    rw [fulfillmentValid_eq] at hstep
    rw [if_neg hne] at hstep
    simp only [Bool.and_eq_true, decide_eq_true_eq] at hstep
    obtain ⟨fcc, hfcc⟩ := hcc pc (List.get?_mem (by simpa [List.get?_eq_getElem?] using hpc))
    refine ⟨hstep.1, ?_⟩
    have : pc.claimUri = some (pc.claimUri.getD "") := by
      simp [Condition.claimUri, hfcc]
    rw [this, hstep.2]
  · intro hR i f c u hf hc hu
    rw [List.getElem?_map] at hu
    cases hpc : conds[i]? with
    | none => rw [hpc] at hu; cases hu
    | some pc =>
        rw [hpc] at hu
        have hu2 : pc.claimUri.getD "" = u := by simpa using hu
        have h3 := hR i f c pc hf hc hpc
        rw [fulfillmentValid_eq, if_neg hne]
        simp only [Bool.and_eq_true, decide_eq_true_eq]
        refine ⟨h3.1, ?_⟩
        rw [← hu2, h3.2]
        rfl

/-- Witness for C3: the equivalence instantiated at a concrete
single-input `TRANSFER` transaction and its prior Condition. -/
theorem c3_transfer_valid_iff_witness :
    sampleTransfer.operation = Transaction.TRANSFER ∧
    sampleTransfer.fulfillments.length = sampleTransfer.conditions.length ∧
    sampleTransfer.conditions.length = [samplePrior].length ∧
    (sampleTransfer.fulfillments_valid (some [samplePrior]) = .ok true ↔
      ∀ (i : Nat) f c pc, sampleTransfer.fulfillments[i]? = some f →
        sampleTransfer.conditions[i]? = some c → [samplePrior][i]? = some pc →
        (f.fulfillment.validate (sampleTransfer.ioMessage f c) = true ∧
          pc.claimUri = some f.fulfillment.conditionUri)) := by
  refine ⟨rfl, rfl, rfl, c3_transfer_valid_iff _ _ rfl ?_ rfl rfl⟩
  intro c hc
  rw [List.mem_singleton] at hc
  subst hc
  exact ⟨.ed25519 samplePub none, rfl⟩

/-- Witness for C2: the round trip on a concrete `CREATE` transaction. -/
theorem c2_roundtrip_witness :
    sampleTx.operation ∈ Transaction.ALLOWED_OPERATIONS ∧
    ∃ tx', Transaction.from_dict sampleTx.to_dict "u" = .ok tx' ∧
      tx'.to_dict = sampleTx.to_dict := by
  have h : sampleTx.operation ∈ Transaction.ALLOWED_OPERATIONS := by
    simp [sampleTx, Transaction.ALLOWED_OPERATIONS, Transaction.CREATE, Transaction.TRANSFER,
      Transaction.GENESIS]
  exact ⟨h, c2_roundtrip sampleTx "u" h⟩

theorem write_alloc_read (cells : List Fulfillment) (f v : Fulfillment) (m : Nat)
    (hm : m < cells.length) :
    ((cells ++ [f]).set cells.length v)[m]? = cells[m]? := by
  rw [List.getElem?_set_ne (by omega), List.getElem?_append, if_pos hm]

theorem signStepS_frame (tx : Transaction) (kps : List (String × String)) (store : FStore)
    (r : Nat) (c : Condition) (store' : FStore) (r' : Nat)
    (h : Transaction.signStepS tx kps store r c = .ok (store', r')) :
    store.cells.length ≤ store'.cells.length ∧
    (∀ m, m < store.cells.length → store'.read m = store.read m) ∧
    store.cells.length ≤ r' := by
  simp only [Transaction.signStepS] at h
  cases hr : store.read r with
  | none => simp [hr] at h
  | some f =>
      simp only [hr] at h
      cases hm : tx.genTxMessage f c with
      | error e => rw [hm, exceptBindError] at h; cases h
      | ok msg =>
          rw [hm, exceptBindOk] at h
          cases hf : f.fulfillment with
          | ed25519 pk s =>
              simp only [hf, FStore.alloc] at h
              cases ho : f.owners_before with
              | nil => simp [ho] at h
              | cons o rest =>
                  simp only [ho] at h
                  cases hk : kpLookup kps o with
                  | none => simp [hk] at h
                  | some sk =>
                      simp only [hk] at h
                      cases h
                      refine ⟨by simp [FStore.write], ?_, le_refl _⟩
                      intro m hm2
                      simp only [FStore.write, FStore.read]
                      exact write_alloc_read _ _ _ m hm2
          | threshold t subs =>
              simp only [hf, FStore.alloc] at h
              cases hst : Transaction.signThresholdOwners (CCFulfillment.threshold t subs)
                  f.owners_before kps msg with
              | error e => rw [hst] at h; cases h
              | ok cc' =>
                  rw [hst] at h
                  cases h
                  refine ⟨by simp [FStore.write], ?_, le_refl _⟩
                  intro m hm2
                  simp only [FStore.write, FStore.read]
                  exact write_alloc_read _ _ _ m hm2
          | preimage p =>
              simp only [hf] at h
              cases h

theorem signLoopS_frame (tx : Transaction) (kps : List (String × String)) :
    ∀ (pairs : List (Nat × Nat × Condition)) (store : FStore) (refs : List Nat) (n : Nat),
    n ≤ store.cells.length →
    (n ≤ (Transaction.signLoopS tx kps pairs store refs).1.cells.length ∧
      (∀ r, r < n → (Transaction.signLoopS tx kps pairs store refs).1.read r = store.read r) ∧
      (∀ j : Nat, (Transaction.signLoopS tx kps pairs store refs).2.1[j]? = refs[j]? ∨
        ∃ r', (Transaction.signLoopS tx kps pairs store refs).2.1[j]? = some r' ∧ n ≤ r'))
  | [], store, refs, n => fun hn => ⟨hn, fun _ _ => rfl, fun j => Or.inl rfl⟩
  | (index, r, c) :: rest, store, refs, n => by
      intro hn
      simp only [Transaction.signLoopS]
      cases hs : Transaction.signStepS tx kps store r c with
      | error e => exact ⟨hn, fun _ _ => rfl, fun j => Or.inl rfl⟩
      | ok p =>
          obtain ⟨store', r'⟩ := p
          obtain ⟨hlen, hread, hfresh⟩ := signStepS_frame tx kps store r c store' r' hs
          obtain ⟨ih1, ih2, ih3⟩ := signLoopS_frame tx kps rest store' (refs.set index r') n
            (le_trans hn hlen)
          refine ⟨ih1, ?_, ?_⟩
          · intro m hm
            rw [ih2 m hm, hread m (by omega)]
          · intro j
            rcases ih3 j with hj | ⟨r2, hj, hr2⟩
            · rw [hj]
              by_cases hij : index = j
              · subst hij
                by_cases hlt : index < refs.length
                · refine Or.inr ⟨r', ?_, by omega⟩
                  rw [List.getElem?_set_eq_of_lt _ hlt]
                · refine Or.inl ?_
                  rw [List.set_eq_of_length_le (by omega)]
              · exact Or.inl (by rw [List.getElem?_set_ne hij])
            · exact Or.inr ⟨r2, hj, hr2⟩

/-- C5: over the heap model of the signing pipeline, no pre-existing
Fulfillment object is ever mutated — every cell that existed before
`sign` holds its original value afterwards — and every entry of the
fulfillments sequence is either untouched or replaced by a reference to
a freshly allocated (deep-copied, then signed) object. -/
theorem c5_sign_never_mutates_alias (tx : Transaction) (store : FStore) (refs : List Nat)
    (kps : List (String × String)) :
    (∀ r, r < store.cells.length →
      (tx.signS store refs kps).1.read r = store.read r)
    ∧ (∀ j : Nat, ((tx.signS store refs kps).2.1)[j]? = refs[j]? ∨
        ∃ r', ((tx.signS store refs kps).2.1)[j]? = some r' ∧ store.cells.length ≤ r') := by
  obtain ⟨h1, h2, h3⟩ := signLoopS_frame tx kps ((refs.zip tx.conditions).enum) store refs
    store.cells.length (le_refl _)
  exact ⟨h2, h3⟩

mutual

theorem signFirstLeaf_hasLeafVk : ∀ (cc : CCFulfillment) (vk msg sk : String)
    (cc' : CCFulfillment), cc.signFirstLeaf vk msg sk = some cc' →
    ∀ v, cc'.hasLeafVk v = cc.hasLeafVk v
  | .ed25519 pk s, vk, msg, sk, cc' => by
      intro h v
      simp only [CCFulfillment.signFirstLeaf] at h
      by_cases hpk : pk = vk
      · rw [if_pos hpk] at h
        cases h
        rfl
      · rw [if_neg hpk] at h
        cases h
  | .threshold t subs, vk, msg, sk, cc' => by
      intro h v
      simp only [CCFulfillment.signFirstLeaf] at h
      cases hl : CCFulfillment.signFirstLeafList subs vk msg sk with
      | none => rw [hl] at h; cases h
      | some subs' =>
          rw [hl] at h
          cases h
          simp only [CCFulfillment.hasLeafVk]
          exact signFirstLeafList_hasLeafVk subs vk msg sk subs' hl v
  | .preimage p, vk, msg, sk, cc' => by
      intro h
      simp [CCFulfillment.signFirstLeaf] at h

theorem signFirstLeafList_hasLeafVk : ∀ (l : List CCFulfillment) (vk msg sk : String)
    (l' : List CCFulfillment), CCFulfillment.signFirstLeafList l vk msg sk = some l' →
    ∀ v, CCFulfillment.hasLeafVkList l' v = CCFulfillment.hasLeafVkList l v
  | [], vk, msg, sk, l' => by
      intro h
      simp [CCFulfillment.signFirstLeafList] at h
  | f :: fs, vk, msg, sk, l' => by
      intro h v
      simp only [CCFulfillment.signFirstLeafList] at h
      cases hf : f.signFirstLeaf vk msg sk with
      | some f2 =>
          rw [hf] at h
          cases h
          simp only [CCFulfillment.hasLeafVkList]
          rw [signFirstLeaf_hasLeafVk f vk msg sk f2 hf v]
      | none =>
          rw [hf] at h
          cases hfs : CCFulfillment.signFirstLeafList fs vk msg sk with
          | none => rw [hfs] at h; cases h
          | some fs2 =>
              rw [hfs] at h
              cases h
              simp only [CCFulfillment.hasLeafVkList]
              rw [signFirstLeafList_hasLeafVk fs vk msg sk fs2 hfs v]

end

theorem signThresholdOwners_bad (msg : String) (kps : List (String × String)) :
    ∀ (owners : List String) (cc : CCFulfillment),
    (∃ o ∈ owners, cc.hasLeafVk o = false ∨ kpLookup kps o = none) →
    Transaction.signThresholdOwners cc owners kps msg = .error .keypairMismatch
  | [], cc => by
      intro hbad
      obtain ⟨o, ho, _⟩ := hbad
      cases ho
  | o :: rest, cc => by
      intro hbad
      simp only [Transaction.signThresholdOwners]
      by_cases hL : cc.hasLeafVk o = true
      · rw [if_pos hL]
        cases hk : kpLookup kps o with
        | none => rfl
        | some sk =>
            cases hsf : cc.signFirstLeaf o msg sk with
            | none => simp [hsf]
            | some cc' =>
                simp only [hsf]
                apply signThresholdOwners_bad msg kps rest cc'
                obtain ⟨o2, ho2, hcase⟩ := hbad
                rcases List.mem_cons.mp ho2 with h | h
                · subst h
                  rcases hcase with hcase | hcase
                  · rw [hL] at hcase; cases hcase
                  · rw [hk] at hcase; cases hcase
                · refine ⟨o2, h, ?_⟩
                  rcases hcase with hcase | hcase
                  · exact Or.inl (by rw [signFirstLeaf_hasLeafVk cc o msg sk cc' hsf o2, hcase])
                  · exact Or.inr hcase
      · rw [if_neg hL]

theorem signStep_bad (tx : Transaction) (kps : List (String × String)) (f : Fulfillment)
    (c : Condition) (hop : tx.operation ∈ Transaction.ALLOWED_OPERATIONS)
    (hbad : badKeypair kps f) :
    Transaction.signStep tx kps f c = .error .keypairMismatch := by
  simp only [Transaction.signStep, genTxMessage_ok tx f c hop, exceptBindOk]
  rcases hbad with ⟨⟨pk, s, hf⟩, ⟨o, rest, ho, hk⟩⟩ | ⟨⟨t, subs, hf⟩, hbadT⟩
  · simp only [Transaction.signFfill, hf, Transaction.signSimple, ho, hk]
  · simp only [Transaction.signFfill, hf]
    rw [show Transaction.signThresholdOwners (CCFulfillment.threshold t subs)
        f.owners_before kps (tx.ioMessage f c) = .error .keypairMismatch from by
      apply signThresholdOwners_bad
      obtain ⟨o, ho, hcase⟩ := hbadT
      exact ⟨o, ho, by rw [← hf]; exact hcase⟩]
    rfl

theorem signLoopEnum_firstError (tx : Transaction) (kps : List (String × String)) :
    ∀ (i : Nat) (fl : List Fulfillment) (cl : List Condition) (base : Nat)
      (acc : List Fulfillment),
    i < fl.length → i < cl.length →
    (∀ j f c, j < i → fl[j]? = some f → cl[j]? = some c →
      (Transaction.signStep tx kps f c).isOk = true) →
    (∀ f c, fl[i]? = some f → cl[i]? = some c →
      Transaction.signStep tx kps f c = .error .keypairMismatch) →
    ∃ final, Transaction.signLoop tx kps (List.enumFrom base (fl.zip cl)) acc =
        (final, some TxError.keypairMismatch) ∧
      (∀ m : Nat, (∀ j, j < i → m ≠ base + j) → final[m]? = acc[m]?) ∧
      (∀ j f c, j < i → fl[j]? = some f → cl[j]? = some c →
        final[base + j]? = if base + j < acc.length then
          (Transaction.signStep tx kps f c).toOption else none) := by
  intro i
  induction i with
  | zero =>
      intro fl cl base acc hi1 hi2 hpre hbad
      match fl, cl, hi1, hi2 with
      | f :: fl', c :: cl', _, _ =>
          have hstep := hbad f c (by simp) (by simp)
          refine ⟨acc, ?_, fun m _ => rfl, fun j f2 c2 hj => by omega⟩
          simp only [List.zip_cons_cons, List.enumFrom, Transaction.signLoop, hstep]
  | succ i ih =>
      intro fl cl base acc hi1 hi2 hpre hbad
      match fl, cl, hi1, hi2 with
      | f :: fl', c :: cl', hi1, hi2 =>
          have hok := hpre 0 f c (Nat.succ_pos i) (by simp) (by simp)
          cases hs : Transaction.signStep tx kps f c with
          | error e => rw [hs] at hok; cases hok
          | ok g =>
              obtain ⟨final, heq, hframe, hinst⟩ := ih fl' cl' (base + 1) (acc.set base g)
                (by simpa using hi1) (by simpa using hi2)
                (fun j f2 c2 hj hf2 hc2 => hpre (j + 1) f2 c2 (by omega)
                  (by simpa using hf2) (by simpa using hc2))
                (fun f2 c2 hf2 hc2 => hbad f2 c2 (by simpa using hf2) (by simpa using hc2))
              refine ⟨final, ?_, ?_, ?_⟩
              · simp only [List.zip_cons_cons, List.enumFrom, Transaction.signLoop, hs]
                exact heq
              · intro m hm
                rw [hframe m (fun j hj => by
                  have := hm (j + 1) (by omega)
                  omega)]
                rw [List.getElem?_set_ne (by
                  have := hm 0 (Nat.succ_pos i)
                  omega)]
              · intro j f2 c2 hj hf2 hc2
                cases j with
                | zero =>
                    have hbase := hframe base (fun j2 hj2 => by omega)
                    simp only [List.getElem?_cons_zero, Option.some.injEq] at hf2 hc2
                    subst hf2
                    subst hc2
                    rw [Nat.add_zero, hbase]
                    by_cases hblt : base < acc.length
                    · rw [List.getElem?_set_eq_of_lt _ hblt, if_pos hblt, hs]
                      rfl
                    · rw [List.set_eq_of_length_le (by omega), if_neg hblt]
                      exact List.getElem?_eq_none (by omega)
                | succ j' =>
                    have := hinst j' f2 c2 (by omega) (by simpa using hf2)
                      (by simpa using hc2)
                    rw [show base + (j' + 1) = base + 1 + j' from by omega]
                    rw [this, List.length_set]

/-- C6: if every (fulfillment, condition) pair before index `i` signs
successfully and the fulfillment at index `i` has a simple claim whose
first `owners_before` key has no supplied private key, or a threshold
claim with an owner that cannot be located or has no private key, then
`sign` raises a `KeypairMismatch`-kind error, leaving the signed copies
installed at the indices below `i` and every entry from `i` on
untouched. -/
theorem c6_sign_keypair_mismatch (tx : Transaction) (ks : List String) (i : Nat)
    (hop : tx.operation ∈ Transaction.ALLOWED_OPERATIONS)
    (hi1 : i < tx.fulfillments.length) (hi2 : i < tx.conditions.length)
    (hpre : ∀ j f c, j < i → tx.fulfillments[j]? = some f → tx.conditions[j]? = some c →
      (Transaction.signStep tx (keyPairs ks) f c).isOk = true)
    (hbad : ∀ f, tx.fulfillments[i]? = some f → badKeypair (keyPairs ks) f) :
    (tx.sign (some ks)).2 = some TxError.keypairMismatch ∧
    (∀ m : Nat, i ≤ m → (tx.sign (some ks)).1.fulfillments[m]? = tx.fulfillments[m]?) ∧
    (∀ j f c, j < i → tx.fulfillments[j]? = some f → tx.conditions[j]? = some c →
      (tx.sign (some ks)).1.fulfillments[j]? =
        (Transaction.signStep tx (keyPairs ks) f c).toOption) := by
  obtain ⟨final, heq, hframe, hinst⟩ := signLoopEnum_firstError tx (keyPairs ks) i
    tx.fulfillments tx.conditions 0 tx.fulfillments hi1 hi2 hpre
    (fun f c hf _ => signStep_bad tx (keyPairs ks) f c hop (hbad f hf))
  have hsign : tx.sign (some ks) = ({ tx with fulfillments := final },
      some TxError.keypairMismatch) := by
    simp only [Transaction.sign, List.enum]
    rw [heq]
  refine ⟨by rw [hsign], ?_, ?_⟩
  · intro m hm
    rw [hsign]
    exact hframe m (fun j hj => by omega)
  · intro j f c hj hf hc
    rw [hsign]
    have := hinst j f c hj hf hc
    rw [Nat.zero_add] at this
    rw [this, if_pos (by omega)]

/-- Witness for C6: signing a concrete transaction whose sole
fulfillment's owner has no matching private key raises
`KeypairMismatch` and leaves the fulfillments untouched. -/
theorem c6_sign_keypair_mismatch_witness :
    (sampleBadTx.sign (some ["zz"])).2 = some TxError.keypairMismatch ∧
    (∀ m : Nat, 0 ≤ m →
      (sampleBadTx.sign (some ["zz"])).1.fulfillments[m]? = sampleBadTx.fulfillments[m]?) ∧
    (∀ j f c, j < 0 → sampleBadTx.fulfillments[j]? = some f →
      sampleBadTx.conditions[j]? = some c →
      (sampleBadTx.sign (some ["zz"])).1.fulfillments[j]? =
        (Transaction.signStep sampleBadTx (keyPairs ["zz"]) f c).toOption) := by
  refine c6_sign_keypair_mismatch sampleBadTx ["zz"] 0 ?_ ?_ ?_ ?_ ?_
  · simp [sampleBadTx, sampleTx, Transaction.ALLOWED_OPERATIONS, Transaction.CREATE]
  · simp [sampleBadTx, sampleTx]
  · simp [sampleBadTx, sampleTx]
  · intro j f c hj
    exact absurd hj (Nat.not_lt_zero j)
  · intro f hf
    simp only [sampleBadTx, sampleTx, List.getElem?_cons_zero, Option.some.injEq] at hf
    subst hf
    exact Or.inl ⟨⟨"alice", none, rfl⟩, "alice", [], rfl, rfl⟩

end BigchainCommon
